import Mathlib

/-!
# A verification model of the rebop stochastic simulator

rebop is an exact stochastic simulator (Gillespie direct method, SSA) for
well-mixed chemical reaction networks.  The repository ships a thin Python
binding layer (`python/rebop/gillespie.py`) over a compiled core; the core
itself is shallow-embedded here from the specification, since only its
callers, tests and declarations are available.  Numeric conventions: the
core computes propensities and times in IEEE-754 `f64`; this model uses `ℚ`
(exact arithmetic), which agrees with the algebraic identities stated below.
Species counts are signed 64-bit integers in the core, modelled as `ℤ`.
-/

namespace Rebop

/-- Rate-expression AST (spec §4.1): numeric literals, identifiers (species
or parameter names), unary negation and the four binary operators. -/
inductive RExpr where
  | lit (c : ℚ)
  | var (n : String)
  | neg (e : RExpr)
  | add (l r : RExpr)
  | sub (l r : RExpr)
  | mul (l r : RExpr)
  | div (l r : RExpr)
deriving DecidableEq, Repr

/-- The set (as a list) of free names referenced by a rate expression
(spec §4.1 "Name inventory"). -/
def RExpr.freeVars : RExpr → List String
  | .lit _ => []
  | .var n => [n]
  | .neg e => e.freeVars
  | .add l r => l.freeVars ++ r.freeVars
  | .sub l r => l.freeVars ++ r.freeVars
  | .mul l r => l.freeVars ++ r.freeVars
  | .div l r => l.freeVars ++ r.freeVars

/-- Evaluation of a rate expression in an environment resolving every name
to a value (spec §4.1).  Division is `ℚ` division (the core uses IEEE-754
`f64`; a division by zero is clamped by the driver's sanity guard either
way, spec §7.4). -/
def RExpr.eval (env : String → ℚ) : RExpr → ℚ
  | .lit c => c
  | .var n => env n
  | .neg e => -(e.eval env)
  | .add l r => l.eval env + r.eval env
  | .sub l r => l.eval env - r.eval env
  | .mul l r => l.eval env * r.eval env
  | .div l r => l.eval env / r.eval env

/-- A reaction rate is either a mass-action rate constant or an arbitrary
expression (spec §3, "rate_kind"). -/
inductive RateKind where
  | const (c : ℚ)
  | expr (e : RExpr)
deriving DecidableEq, Repr, Inhabited

/-- A reaction: ordered multisets of reactant and product species indices
plus the rate kind (spec §3). -/
structure Reaction where
  reactants : List ℕ
  products : List ℕ
  rate : RateKind
deriving DecidableEq, Repr, Inhabited

/-- A reaction network: the intern table (index → name, in intern order)
and the reactions in declaration order (spec §3). -/
structure Network where
  species : List String
  reactions : List Reaction
deriving DecidableEq, Repr, Inhabited

/-- Intern a single species name: append it to the table on first mention
(spec §3 "Lifecycle"). -/
def internOne (sp : List String) (n : String) : List String :=
  if n ∈ sp then sp else sp ++ [n]

/-- Intern a list of names in order. -/
def internAll (sp : List String) (ns : List String) : List String :=
  ns.foldl internOne sp

/-- Index of an interned species name in the table. -/
def spIdx (sp : List String) (n : String) : ℕ :=
  sp.findIdx (· == n)

/-- `add_reaction` (spec §4.2): interns previously unseen reactant/product
names, then appends the reaction (and the optional reverse reaction with
swapped sides). -/
def addReaction (net : Network) (rate : RateKind) (reactants products : List String)
    (reverseRate : Option RateKind) : Network :=
  let sp := internAll (internAll net.species reactants) products
  let fwd : Reaction :=
    ⟨reactants.map (spIdx sp), products.map (spIdx sp), rate⟩
  let rs := net.reactions ++ [fwd]
  match reverseRate with
  | some r => ⟨sp, rs ++ [⟨products.map (spIdx sp), reactants.map (spIdx sp), r⟩]⟩
  | none => ⟨sp, rs⟩

/-- Mass-action combinatorial factor (spec §4.3): each reactant appearance
consumes one factor `x[s]` and decrements that species' remaining count by
one within the reaction, so `A+A` contributes `x[A]·(x[A]−1)`. -/
def lmaFactor (x : ℕ → ℤ) : List ℕ → ℤ
  | [] => 1
  | s :: rest => x s * lmaFactor (fun i => if i = s then x i - 1 else x i) rest

/-- Falling factorial `v·(v−1)·…·(v−n+1)`. -/
def fallProd (v : ℤ) (n : ℕ) : ℤ :=
  ∏ j ∈ Finset.range n, (v - (j : ℤ))

/-- Environment used to evaluate rate expressions: a name resolves to the
species count if it is an interned species, else to its parameter binding
(spec §4.1 "Evaluation": species table first, else the parameter map). -/
def resolveEnv (net : Network) (params : List (String × ℚ)) (x : List ℤ) (n : String) : ℚ :=
  match net.species.findIdx? (· == n) with
  | some i => ((x.getD i 0 : ℤ) : ℚ)
  | none => ((params.lookup n).getD 0)

/-- Raw per-reaction propensity `aᵣ(x)` (spec §4.3): mass-action with the
stochastic-rate-constant convention for `Constant(c)`, expression
evaluation for `Expr`. -/
def rawPropensity (net : Network) (params : List (String × ℚ)) (x : List ℤ)
    (r : Reaction) : ℚ :=
  match r.rate with
  | .const c => c * ((lmaFactor (fun i => x.getD i 0) r.reactants : ℤ) : ℚ)
  | .expr e => e.eval (resolveEnv net params x)

/-- Effective propensity: the driver's sanity guard clamps negative (and
non-finite) propensities to zero (spec §4.1, §7.4). -/
def effPropensity (net : Network) (params : List (String × ℚ)) (x : List ℤ)
    (r : Reaction) : ℚ :=
  max 0 (rawPropensity net params x r)

/-- Net state change of reaction `r` at species index `i` (spec §3,
"Stoichiometry"): product multiplicity minus reactant multiplicity. -/
def rdelta (r : Reaction) (i : ℕ) : ℤ :=
  (r.products.count i : ℤ) - (r.reactants.count i : ℤ)

/-- Fire a reaction: apply its net change vector to the state (spec §4.4
step 6).  The state is a length-`S` vector. -/
def applyReaction (S : ℕ) (x : List ℤ) (r : Reaction) : List ℤ :=
  (List.range S).map (fun i => x.getD i 0 + rdelta r i)

/-- Modelled from the spec: the PRNG (§4.6) is a deterministic 64-bit
generator whose exact algorithm the spec leaves free; the core algorithm is
not under `src/`.  We model it with the splitmix64 step: new state and one
64-bit output per call. -/
def prngNext (s : ℕ) : ℕ × ℕ :=
  let s2 := (s + 0x9E3779B97F4A7C15) % 2 ^ 64
  let z1 := ((s2 ^^^ (s2 >>> 30)) * 0xBF58476D1CE4E5B9) % 2 ^ 64
  let z2 := ((z1 ^^^ (z1 >>> 27)) * 0x94D049BB133111EB) % 2 ^ 64
  ⟨s2, (z2 ^^^ (z2 >>> 31)) % 2 ^ 64⟩

/-- Modelled from the spec: uniforms are `(u64_bits >>> 11) · 2⁻⁵³`, with a
zero mantissa mapped away so that `0` is excluded (spec §4.6).  The extra
`% 2⁵³` is redundant for 64-bit inputs and makes the range explicit. -/
def toUniform (bits : ℕ) : ℚ :=
  let k := (bits >>> 11) % 2 ^ 53
  ((if k = 0 then 1 else k : ℕ) : ℚ) / 2 ^ 53

/-- Modelled from the spec: the driver's time increment is `τ = −ln(u₁)/A`
(spec §4.4 step 3); `ln` is transcendental, so we use the rational
surrogate `(1−u)/u`, which matches `−ln` in sign (zero at `u = 1`,
positive and strictly decreasing on `(0,1)`, diverging at `0⁺`). -/
def negLn (u : ℚ) : ℚ :=
  (1 - u) / u

/-- Reaction selection (spec §4.4 step 5): smallest `k` with
`Σ_{j≤k} aⱼ ≥ target`, by linear scan. -/
def select : List ℚ → ℚ → ℕ
  | [], _ => 0
  | a :: rest, target => if target ≤ a then 0 else select rest (target - a) + 1

/-- Propensity vector over the reactions in declaration order (dense
recomputation, spec §4.3). -/
def propsOf (net : Network) (params : List (String × ℚ)) (x : List ℤ) : List ℚ :=
  net.reactions.map (effPropensity net params x)

/-- Total propensity `A = Σ aᵣ` (spec §4.4). -/
def totalOf (net : Network) (params : List (String × ℚ)) (x : List ℤ) : ℚ :=
  (propsOf net params x).sum

/-- First uniform `u₁` drawn at a step with PRNG state `rng`. -/
def u1Of (rng : ℕ) : ℚ :=
  toUniform (prngNext rng).2

/-- Second uniform `u₂` drawn at a step with PRNG state `rng`. -/
def u2Of (rng : ℕ) : ℚ :=
  toUniform (prngNext (prngNext rng).1).2

/-- PRNG state after the two draws of one step. -/
def rngAfter2 (rng : ℕ) : ℕ :=
  (prngNext (prngNext rng).1).1

/-- Time increment `τ = −ln(u₁)/A` of one step (spec §4.4 step 3). -/
def tauOf (net : Network) (params : List (String × ℚ)) (x : List ℤ) (rng : ℕ) : ℚ :=
  negLn (u1Of rng) / totalOf net params x

/-- Selection threshold `u₂ · A` (spec §4.4 step 5). -/
def targetOf (net : Network) (params : List (String × ℚ)) (x : List ℤ) (rng : ℕ) : ℚ :=
  u2Of rng * totalOf net params x

/-- Index of the reaction selected at a step (spec §4.4 step 5). -/
def chosenIdx (net : Network) (params : List (String × ℚ)) (x : List ℤ) (rng : ℕ) : ℕ :=
  select (propsOf net params x) (targetOf net params x rng)

/-- State after firing the selected reaction (spec §4.4 step 6). -/
def nextState (net : Network) (params : List (String × ℚ)) (x : List ℤ) (rng : ℕ) : List ℤ :=
  applyReaction net.species.length x (net.reactions.getD (chosenIdx net params x rng) default)

/-- Prepend a recorded event to a loop result. -/
def consEvent (ev : ℚ × List ℤ) (rest : List (ℚ × List ℤ) × Bool × List ℤ) :
    List (ℚ × List ℤ) × Bool × List ℤ :=
  (ev :: rest.1, rest.2.1, rest.2.2)

/-- Modelled from the spec: the SSA direct-method main loop (§4.4), dense
propensity bookkeeping (§4.3); the core driver is not under `src/`.
Returns the fired events `(time, state after)` in order, an exhaustion
flag (total propensity reached zero), and the final state.  The fuel
argument is the optional `MAX_ITERS` safety cap of §4.4's state machine.
In grid mode the step that would cross `tmax` is clipped: no reaction
fires (§4.4 step 4).  In event mode the first reaction past `tmax` still
fires and is recorded (the last event time exceeds `tmax`, as the tests
require), then the loop stops. -/
def loopDense (net : Network) (params : List (String × ℚ)) (tmax : ℚ) (gridMode : Bool) :
    ℕ → ℚ → List ℤ → ℕ → List (ℚ × List ℤ) × Bool × List ℤ
  | 0, _, x, _ => ([], false, x)
  | fuel + 1, t, x, rng =>
    if totalOf net params x ≤ 0 then ([], true, x)
    else if gridMode = true ∧ tmax < t + tauOf net params x rng then ([], false, x)
    else if gridMode = false ∧ tmax < t + tauOf net params x rng then
      ([(t + tauOf net params x rng, nextState net params x rng)], false, nextState net params x rng)
    else
      consEvent (t + tauOf net params x rng, nextState net params x rng)
        (loopDense net params tmax gridMode fuel (t + tauOf net params x rng)
          (nextState net params x rng) (rngAfter2 rng))

/-- Species indices whose change by a fired reaction would affect reaction
`r`'s propensity: `r`'s reactant list plus the species referenced by its
rate expression (spec §4.3, sparse-mode dependency graph). -/
def readSpecies (net : Network) (r : Reaction) : List ℕ :=
  r.reactants ++
    (match r.rate with
     | .const _ => []
     | .expr e => e.freeVars.filterMap (fun n => net.species.findIdx? (· == n)))

/-- Dependency test: does firing `fired` change a species that `r`'s
propensity reads (spec §4.3, sparse mode)? -/
def dependsOn (net : Network) (r fired : Reaction) : Bool :=
  (readSpecies net r).any (fun i => rdelta fired i != 0)

/-- Sparse-mode propensity update: recompute only the dependent reactions
(spec §4.3). -/
def sparseStepProps (net : Network) (params : List (String × ℚ)) (x2 : List ℤ)
    (fired : Reaction) (props : List ℚ) : List ℚ :=
  (net.reactions.zip props).map
    (fun ra => if dependsOn net ra.1 fired then effPropensity net params x2 ra.1 else ra.2)

/-- Sparse-mode update of the running total `A` by delta (spec §4.3). -/
def sparseStepTotal (net : Network) (params : List (String × ℚ)) (x2 : List ℤ)
    (fired : Reaction) (props : List ℚ) (A : ℚ) : ℚ :=
  A + ((net.reactions.zip props).map
    (fun ra => if dependsOn net ra.1 fired then effPropensity net params x2 ra.1 - ra.2 else 0)).sum

/-- Modelled from the spec: the same SSA main loop with sparse propensity
bookkeeping (§4.3): the propensity vector and the running total are
carried along and only dependent entries are recomputed after a firing. -/
def loopSparse (net : Network) (params : List (String × ℚ)) (tmax : ℚ) (gridMode : Bool) :
    ℕ → ℚ → List ℤ → ℕ → List ℚ → ℚ → List (ℚ × List ℤ) × Bool × List ℤ
  | 0, _, x, _, _, _ => ([], false, x)
  | fuel + 1, t, x, rng, props, A =>
    if A ≤ 0 then ([], true, x)
    else if gridMode = true ∧ tmax < t + negLn (u1Of rng) / A then ([], false, x)
    else if gridMode = false ∧ tmax < t + negLn (u1Of rng) / A then
      ([(t + negLn (u1Of rng) / A,
         applyReaction net.species.length x (net.reactions.getD (select props (u2Of rng * A)) default))],
       false,
       applyReaction net.species.length x (net.reactions.getD (select props (u2Of rng * A)) default))
    else
      consEvent
        (t + negLn (u1Of rng) / A,
         applyReaction net.species.length x (net.reactions.getD (select props (u2Of rng * A)) default))
        (loopSparse net params tmax gridMode fuel (t + negLn (u1Of rng) / A)
          (applyReaction net.species.length x (net.reactions.getD (select props (u2Of rng * A)) default))
          (rngAfter2 rng)
          (sparseStepProps net params
            (applyReaction net.species.length x (net.reactions.getD (select props (u2Of rng * A)) default))
            (net.reactions.getD (select props (u2Of rng * A)) default) props)
          (sparseStepTotal net params
            (applyReaction net.species.length x (net.reactions.getD (select props (u2Of rng * A)) default))
            (net.reactions.getD (select props (u2Of rng * A)) default) props A))

/-- Modelled from the spec: the sparse/dense heuristic (§4.2): sparse when
`S ≥ 8` and the mean number of species touched per reaction divided by `S`
is below `0.25`. -/
def chooseSparse (net : Network) : Bool :=
  let S := net.species.length
  let touched := (net.reactions.map
    (fun r => ((List.range S).filter (fun i => rdelta r i != 0)).length)).sum
  if 8 ≤ S ∧ 0 < net.reactions.length ∧ touched * 4 < S * net.reactions.length then true else false

/-- Errors raised by `run` (spec §6, §7). -/
inductive RunError where
  | missingParameter (n : String)
  | parameterCollidesWithSpecies (n : String)
  | initSpeciesNegative (n : String)
  | unknownVarName (n : String)
  | nonPositiveTmax
deriving DecidableEq, Repr

/-- Successful `run` output: the non-fatal `SpeciesNotInvolvedInAnyReaction`
warning flag, the times array (with `⊤` for the `+∞` sentinel) and the
per-species series in recording order (spec §4.5, §6). -/
structure RunResult where
  warning : Bool
  times : List (WithTop ℚ)
  series : List (String × List ℤ)
deriving DecidableEq, Repr

deriving instance DecidableEq for Except

/-- The network frozen at `run` entry: init names not seen in any reaction
are interned so they appear in the output (spec §4.2 `set_init`). -/
def frozenNet (net : Network) (init : List (String × ℤ)) : Network :=
  ⟨internAll net.species (init.map Prod.fst), net.reactions⟩

/-- The `SpeciesNotInvolvedInAnyReaction` warning is signaled when `init`
mentions a name not interned by any `add_reaction` (spec §4.2). -/
def initWarning (net : Network) (init : List (String × ℤ)) : Bool :=
  init.any (fun p => !(decide (p.1 ∈ net.species)))

/-- Initial state vector over the frozen species table; species omitted
from `init` start at 0. -/
def initState (net : Network) (init : List (String × ℤ)) : List ℤ :=
  (frozenNet net init).species.map (fun n => (init.lookup n).getD 0)

/-- All names referenced by the rate expressions of a network (spec §4.1
"Name inventory"). -/
def exprNames (net : Network) : List String :=
  (net.reactions.map (fun r =>
    match r.rate with
    | .const _ => []
    | .expr e => e.freeVars)).flatten

/-- Referenced names that are neither species nor supplied parameters
(spec §4.1 check (i)). -/
def missingNames (net : Network) (params : List (String × ℚ)) : List String :=
  (exprNames net).filter
    (fun n => !(decide (n ∈ net.species)) && (params.lookup n).isNone)

/-- Parameter names that collide with a declared species name (spec §4.1
check (ii)). -/
def collidingParams (net : Network) (params : List (String × ℚ)) : List String :=
  (params.map Prod.fst).filter (fun n => decide (n ∈ net.species))

/-- State recorded at grid time `tq`: the state immediately after the last
reaction that fired with firing time `≤ tq` (spec §4.5). -/
def stateAt (x0 : List ℤ) (events : List (ℚ × List ℤ)) (tq : ℚ) : List ℤ :=
  events.foldl (fun acc e => if e.1 ≤ tq then e.2 else acc) x0

/-- The uniform grid `t_k = k · tmax / nb_steps`, `k ∈ 0..nb_steps`
(spec §4.5). -/
def gridTimes (nbSteps : ℕ) (tmax : ℚ) : List (WithTop ℚ) :=
  (List.range (nbSteps + 1)).map (fun (k : ℕ) => (((k : ℚ) * tmax / (nbSteps : ℚ) : ℚ) : WithTop ℚ))

/-- Times and state rows of the trajectory (spec §4.5): the uniform grid
when `nb_steps ≥ 1`; in event mode one row per reaction, starting at
`t = 0` with the initial state, plus the `+∞` sentinel row holding the
final state on exhaustion. -/
def outRows (nbSteps : ℕ) (tmax : ℚ) (x0 : List ℤ)
    (lo : List (ℚ × List ℤ) × Bool × List ℤ) : List (WithTop ℚ) × List (List ℤ) :=
  if nbSteps = 0 then
    (((0 : ℚ) : WithTop ℚ) :: (lo.1.map (fun e => ((e.1 : ℚ) : WithTop ℚ)) ++
       (if lo.2.1 then [(⊤ : WithTop ℚ)] else [])),
     x0 :: (lo.1.map Prod.snd ++ (if lo.2.1 then [lo.2.2] else [])))
  else
    (gridTimes nbSteps tmax,
     (List.range (nbSteps + 1)).map (fun (k : ℕ) => stateAt x0 lo.1 ((k : ℚ) * tmax / (nbSteps : ℚ))))

/-- Species recorded in the output: `var_names` when supplied, else all
species in declaration order (spec §4.5); keyed uniquely as in the
binding layer's dict. -/
def recordedOf (net : Network) (varNames : Option (List String)) : List String :=
  (varNames.getD net.species).dedup

/-- One output column per recorded species. -/
def columnsOf (net : Network) (varNames : Option (List String)) (rows : List (List ℤ)) :
    List (String × List ℤ) :=
  (recordedOf net varNames).map
    (fun n => (n, rows.map (fun row => row.getD (spIdx net.species n) 0)))

/-- Validation (spec §7 category 2, in the order of §4.1's checks) and
output assembly around a computed loop result. -/
def runAssemble (net : Network) (init : List (String × ℤ)) (tmax : ℚ) (nbSteps : ℕ)
    (params : List (String × ℚ)) (varNames : Option (List String))
    (lo : List (ℚ × List ℤ) × Bool × List ℤ) : Except RunError RunResult :=
  if tmax ≤ 0 then .error .nonPositiveTmax
  else
    match init.find? (fun p => decide (p.2 < 0)) with
    | some p => .error (.initSpeciesNegative p.1)
    | none =>
      match (missingNames (frozenNet net init) params).head? with
      | some n => .error (.missingParameter n)
      | none =>
        match (collidingParams (frozenNet net init) params).head? with
        | some n => .error (.parameterCollidesWithSpecies n)
        | none =>
          match varNames.bind
              (fun vs => vs.find? (fun n => !(decide (n ∈ (frozenNet net init).species)))) with
          | some n => .error (.unknownVarName n)
          | none =>
            .ok ⟨initWarning net init,
                 (outRows nbSteps tmax (initState net init) lo).1,
                 columnsOf (frozenNet net init) varNames
                   (outRows nbSteps tmax (initState net init) lo).2⟩

/-- Grid mode iff `nb_steps ≥ 1` (spec §4.5). -/
def gridModeOf (nbSteps : ℕ) : Bool :=
  decide (0 < nbSteps)

/-- Initial PRNG state from the 64-bit seed. -/
def initialRng (seed : ℕ) : ℕ :=
  seed % 2 ^ 64

/-- The loop actually run, by layout flag: sparse bookkeeping starts from
the freshly computed propensity vector and total. -/
def loopChosen (net : Network) (params : List (String × ℚ)) (tmax : ℚ) (nbSteps : ℕ)
    (seed : ℕ) (useSparse : Bool) (x0 : List ℤ) (fuel : ℕ) :
    List (ℚ × List ℤ) × Bool × List ℤ :=
  if useSparse then
    loopSparse net params tmax (gridModeOf nbSteps) fuel 0 x0 (initialRng seed)
      (propsOf net params x0) (propsOf net params x0).sum
  else
    loopDense net params tmax (gridModeOf nbSteps) fuel 0 x0 (initialRng seed)

/-- `run` (spec §4.4, §6; binding layer `Gillespie.run`): freeze the
network with the init names, validate, simulate with the chosen layout
(the heuristic decides when `sparse` is `none`), and assemble the labeled
trajectory. -/
def runLoopOut (net : Network) (init : List (String × ℤ)) (tmax : ℚ) (nbSteps : ℕ)
    (params : List (String × ℚ)) (seed : ℕ) (sparse : Option Bool) (fuel : ℕ) :
    List (ℚ × List ℤ) × Bool × List ℤ :=
  loopChosen (frozenNet net init) params tmax nbSteps seed
    (sparse.getD (chooseSparse (frozenNet net init))) (initState net init) fuel

def runSim (net : Network) (init : List (String × ℤ)) (tmax : ℚ) (nbSteps : ℕ)
    (params : List (String × ℚ)) (seed : ℕ) (sparse : Option Bool)
    (varNames : Option (List String)) (fuel : ℕ) : Except RunError RunResult :=
  runAssemble net init tmax nbSteps params varNames
    (runLoopOut net init tmax nbSteps params seed sparse fuel)

/-! ## Basic list lemmas -/

theorem lookup_mem {α β : Type} [BEq α] [LawfulBEq α] {l : List (α × β)} {a : α} {b : β}
    (h : l.lookup a = some b) : (a, b) ∈ l := by
  induction l with
  | nil => simp [List.lookup] at h
  | cons p rest ih =>
    obtain ⟨k, v⟩ := p
    by_cases hak : a == k
    · have hav : v = b := by simpa [List.lookup, hak] using h
      have : a = k := by simpa using hak
      subst this
      subst hav
      exact List.mem_cons_self _ _
    · have h' : rest.lookup a = some b := by simpa [List.lookup, hak] using h
      exact List.mem_cons_of_mem _ (ih h')

theorem findIdx_lt_length_of_mem {l : List String} {a : String} (h : a ∈ l) :
    l.findIdx (· == a) < l.length := by
  induction l with
  | nil => simp at h
  | cons x rest ih =>
    rw [List.findIdx_cons]
    by_cases hxa : x == a
    · simp [hxa]
    · simp only [hxa, cond_false, List.length_cons]
      have ha : a ∈ rest := by
        rcases List.mem_cons.mp h with h1 | h1
        · subst h1; simp at hxa
        · exact h1
      exact Nat.succ_lt_succ (ih ha)

theorem getD_findIdx_of_mem {l : List String} {a : String} (h : a ∈ l) (d : String) :
    l.getD (l.findIdx (· == a)) d = a := by
  induction l with
  | nil => simp at h
  | cons x rest ih =>
    rw [List.findIdx_cons]
    by_cases hxa : x == a
    · simp only [hxa, cond_true]
      simpa using hxa
    · simp only [hxa, cond_false]
      have ha : a ∈ rest := by
        rcases List.mem_cons.mp h with h1 | h1
        · subst h1; simp at hxa
        · exact h1
      simpa using ih ha

theorem findIdx_append_of_none {l1 l2 : List String} {a : String}
    (h : ∀ b ∈ l1, (b == a) = false) :
    (l1 ++ l2).findIdx (· == a) = l1.length + l2.findIdx (· == a) := by
  induction l1 with
  | nil => simp
  | cons x rest ih =>
    have hx : (x == a) = false := h x (by simp)
    rw [List.cons_append, List.findIdx_cons, hx]
    simp only [cond_false, List.length_cons]
    rw [ih (fun b hb => h b (by simp [hb]))]
    omega

theorem getD_map_lt {α β : Type} (f : α → β) (l : List α) (i : ℕ) (d : β) (d' : α)
    (h : i < l.length) : (l.map f).getD i d = f (l.getD i d') := by
  induction l generalizing i with
  | nil => simp at h
  | cons x rest ih =>
    cases i with
    | zero => simp
    | succ j =>
      simp only [List.map_cons, List.getD_cons_succ]
      exact ih j (by simpa using h)

theorem getD_range_map {β : Type} (f : ℕ → β) (S i : ℕ) (d : β) :
    ((List.range S).map f).getD i d = if i < S then f i else d := by
  by_cases h : i < S
  · rw [getD_map_lt f _ i d 0 (by simpa using h)]
    simp [h, List.getD_eq_getElem?_getD, List.getElem?_range h]
  · have hlen : ((List.range S).map f).length ≤ i := by simpa using Nat.le_of_not_lt h
    simp [h, List.getD_eq_getElem?_getD, List.getElem?_eq_none hlen]

theorem head?_mem {α : Type} {l : List α} {a : α} (h : l.head? = some a) : a ∈ l := by
  cases l with
  | nil => simp at h
  | cons x rest => simp at h; simp [h]

/-! ## Uniform draws and the time increment -/

theorem toUniform_pos (bits : ℕ) : 0 < toUniform bits := by
  unfold toUniform
  apply div_pos _ (by norm_num)
  split
  · norm_num
  · rename_i h
    exact_mod_cast Nat.pos_of_ne_zero h

theorem toUniform_lt_one (bits : ℕ) : toUniform bits < 1 := by
  unfold toUniform
  rw [div_lt_one (by norm_num)]
  have hk : (bits >>> 11) % 2 ^ 53 < 2 ^ 53 := Nat.mod_lt _ (by norm_num)
  split
  · norm_num
  · exact_mod_cast hk

theorem negLn_pos {u : ℚ} (h0 : 0 < u) (h1 : u < 1) : 0 < negLn u := by
  unfold negLn
  exact div_pos (by linarith) h0

theorem tauOf_pos (net : Network) (params : List (String × ℚ)) (x : List ℤ) (rng : ℕ)
    (hA : 0 < totalOf net params x) : 0 < tauOf net params x rng :=
  div_pos (negLn_pos (toUniform_pos _) (toUniform_lt_one _)) hA

/-! ## Reaction selection -/

theorem select_lt_length {props : List ℚ} {target : ℚ}
    (h0 : 0 < target) (hle : target ≤ props.sum) :
    select props target < props.length := by
  induction props generalizing target with
  | nil => simp at hle; linarith
  | cons a rest ih =>
    rw [select]
    split
    · simp
    · rename_i hna
      have hat : a < target := not_le.mp hna
      have h0' : 0 < target - a := by linarith
      have hle' : target - a ≤ rest.sum := by
        simp only [List.sum_cons] at hle
        linarith
      simpa using Nat.succ_lt_succ (ih h0' hle')

theorem select_getD_pos {props : List ℚ} {target : ℚ}
    (h0 : 0 < target) (hle : target ≤ props.sum) :
    0 < props.getD (select props target) 0 := by
  induction props generalizing target with
  | nil => simp at hle; linarith
  | cons a rest ih =>
    rw [select]
    split
    · rename_i ha
      simpa using lt_of_lt_of_le h0 ha
    · rename_i hna
      have hat : a < target := not_le.mp hna
      have h0' : 0 < target - a := by linarith
      have hle' : target - a ≤ rest.sum := by
        simp only [List.sum_cons] at hle
        linarith
      simpa using ih h0' hle'

/-- Cumulative propensity through index `k` (spec §4.4 step 5). -/
def cumProp (props : List ℚ) (k : ℕ) : ℚ :=
  ((props.take (k + 1)).sum)

/-- Relational specification of reaction selection (spec §4.4 step 5):
`k` is the smallest index whose cumulative propensity reaches the
threshold; the tie-break is deterministic by construction. -/
def SelRel (props : List ℚ) (target : ℚ) (k : ℕ) : Prop :=
  target ≤ cumProp props k ∧ ∀ j < k, cumProp props j < target

theorem selRel_unique {props : List ℚ} {target : ℚ} {k k' : ℕ}
    (h : SelRel props target k) (h' : SelRel props target k') : k = k' := by
  rcases Nat.lt_trichotomy k k' with hlt | heq | hgt
  · exact absurd (h'.2 k hlt) (not_lt.mpr h.1)
  · exact heq
  · exact absurd (h.2 k' hgt) (not_lt.mpr h'.1)

theorem selRel_select {props : List ℚ} {target : ℚ}
    (h0 : 0 < target) (hle : target ≤ props.sum) :
    SelRel props target (select props target) := by
  induction props generalizing target with
  | nil => simp at hle; linarith
  | cons a rest ih =>
    rw [select]
    split
    · rename_i ha
      exact ⟨by simpa [cumProp] using ha, fun j hj => by omega⟩
    · rename_i hna
      have hat : a < target := not_le.mp hna
      have h0' : 0 < target - a := by linarith
      have hle' : target - a ≤ rest.sum := by
        simp only [List.sum_cons] at hle
        linarith
      obtain ⟨ih1, ih2⟩ := ih h0' hle'
      constructor
      · simp only [cumProp, List.take_succ_cons, List.sum_cons] at ih1 ⊢
        linarith
      · intro j hj
        cases j with
        | zero =>
          simp only [cumProp, List.take_succ_cons, List.take_zero, List.sum_cons, List.sum_nil]
          linarith
        | succ i =>
          have := ih2 i (by omega)
          simp only [cumProp, List.take_succ_cons, List.sum_cons] at this ⊢
          linarith

/-! ## Mass-action combinatorics -/

theorem fallProd_zero (v : ℤ) : fallProd v 0 = 1 := by
  simp [fallProd]

theorem fallProd_one (v : ℤ) : fallProd v 1 = v := by
  simp [fallProd]

theorem fallProd_succ_peel (v : ℤ) (n : ℕ) : fallProd v (n + 1) = v * fallProd (v - 1) n := by
  unfold fallProd
  rw [Finset.prod_range_succ']
  simp only [Nat.cast_add, Nat.cast_one, Nat.cast_zero, sub_zero]
  rw [mul_comm]
  congr 1
  apply Finset.prod_congr rfl
  intro j _
  ring

theorem lmaFactor_congr (L : List ℕ) : ∀ (x y : ℕ → ℤ), (∀ s ∈ L, x s = y s) →
    lmaFactor x L = lmaFactor y L := by
  induction L with
  | nil => intro x y _; rfl
  | cons s rest ih =>
    intro x y h
    rw [lmaFactor, lmaFactor, h s (by simp)]
    congr 1
    apply ih
    intro i hi
    by_cases his : i = s
    · simp [his, h s (by simp)]
    · simp [his, h i (by simp [hi])]

theorem lmaFactor_eq_prod (L : List ℕ) : ∀ (x : ℕ → ℤ),
    lmaFactor x L = ∏ s ∈ L.toFinset, fallProd (x s) (L.count s) := by
  induction L with
  | nil => intro x; simp [lmaFactor]
  | cons s rest ih =>
    intro x
    rw [lmaFactor, ih]
    by_cases hs : s ∈ rest.toFinset
    · have hins : (s :: rest).toFinset = rest.toFinset := by
        simp only [List.toFinset_cons]
        exact Finset.insert_eq_self.mpr hs
      rw [hins]
      rw [← Finset.mul_prod_erase rest.toFinset
            (fun t => fallProd (if t = s then x t - 1 else x t) (rest.count t)) hs,
          ← Finset.mul_prod_erase rest.toFinset
            (fun t => fallProd (x t) ((s :: rest).count t)) hs]
      have hcnt : (s :: rest).count s = rest.count s + 1 := by
        simp [List.count_cons]
      simp only [hcnt, fallProd_succ_peel, eq_self_iff_true, if_true, ← mul_assoc]
      congr 1
      apply Finset.prod_congr rfl
      intro t ht
      have hts : t ≠ s := (Finset.mem_erase.mp ht).1
      have : (s :: rest).count t = rest.count t := by
        simp [List.count_cons, hts]
      rw [this]
      congr 1
      simp [hts]
    · have hcnt0 : rest.count s = 0 := by
        rw [List.count_eq_zero]
        simpa using hs
      have hins : (s :: rest).toFinset = insert s rest.toFinset := by simp
      rw [hins, Finset.prod_insert hs]
      have hcnt : (s :: rest).count s = 1 := by
        simp [List.count_cons, hcnt0]
      rw [hcnt, fallProd_one]
      congr 1
      apply Finset.prod_congr rfl
      intro t ht
      have hts : t ≠ s := fun hc => hs (hc ▸ ht)
      have : (s :: rest).count t = rest.count t := by
        simp [List.count_cons, hts]
      rw [this]
      congr 1
      simp [hts]

theorem fallProd_eq_zero_of_lt {v : ℤ} {n : ℕ} (h0 : 0 ≤ v) (h : v < (n : ℤ)) :
    fallProd v n = 0 := by
  apply Finset.prod_eq_zero (i := v.toNat)
  · simp only [Finset.mem_range]
    omega
  · omega

theorem fallProd_pos_of_le {v : ℤ} {n : ℕ} (h : (n : ℤ) ≤ v) : 0 < fallProd v n := by
  apply Finset.prod_pos
  intro j hj
  simp only [Finset.mem_range] at hj
  omega

theorem fallProd_nonneg {v : ℤ} (h0 : 0 ≤ v) (n : ℕ) : 0 ≤ fallProd v n := by
  by_cases h : (n : ℤ) ≤ v
  · exact le_of_lt (fallProd_pos_of_le h)
  · rw [fallProd_eq_zero_of_lt h0 (by omega)]

theorem lmaFactor_nonneg {x : ℕ → ℤ} (h0 : ∀ s, 0 ≤ x s) (L : List ℕ) :
    0 ≤ lmaFactor x L := by
  rw [lmaFactor_eq_prod]
  apply Finset.prod_nonneg
  intro s _
  exact fallProd_nonneg (h0 s) _

theorem count_le_of_lmaFactor_pos {x : ℕ → ℤ} (h0 : ∀ s, 0 ≤ x s) {L : List ℕ}
    (hpos : 0 < lmaFactor x L) : ∀ s, (L.count s : ℤ) ≤ x s := by
  intro s
  by_cases hs : s ∈ L
  · by_contra hc
    have hlt : x s < (L.count s : ℤ) := by omega
    have hz : fallProd (x s) (L.count s) = 0 := fallProd_eq_zero_of_lt (h0 s) hlt
    have : lmaFactor x L = 0 := by
      rw [lmaFactor_eq_prod]
      exact Finset.prod_eq_zero (List.mem_toFinset.mpr hs) hz
    omega
  · have : L.count s = 0 := List.count_eq_zero.mpr hs
    rw [this]
    exact_mod_cast h0 s

/-! ## Expression evaluation only reads its free variables -/

theorem eval_congr (e : RExpr) : ∀ (env1 env2 : String → ℚ),
    (∀ n ∈ e.freeVars, env1 n = env2 n) → e.eval env1 = e.eval env2 := by
  induction e with
  | lit c => intro env1 env2 _; rfl
  | var n => intro env1 env2 h; exact h n (by simp [RExpr.freeVars])
  | neg e ih =>
    intro env1 env2 h
    simp only [RExpr.eval]
    rw [ih env1 env2 (fun n hn => h n (by simpa [RExpr.freeVars] using hn))]
  | add l r ihl ihr =>
    intro env1 env2 h
    simp only [RExpr.eval]
    rw [ihl env1 env2 (fun n hn => h n (by simp [RExpr.freeVars, hn])),
        ihr env1 env2 (fun n hn => h n (by simp [RExpr.freeVars, hn]))]
  | sub l r ihl ihr =>
    intro env1 env2 h
    simp only [RExpr.eval]
    rw [ihl env1 env2 (fun n hn => h n (by simp [RExpr.freeVars, hn])),
        ihr env1 env2 (fun n hn => h n (by simp [RExpr.freeVars, hn]))]
  | mul l r ihl ihr =>
    intro env1 env2 h
    simp only [RExpr.eval]
    rw [ihl env1 env2 (fun n hn => h n (by simp [RExpr.freeVars, hn])),
        ihr env1 env2 (fun n hn => h n (by simp [RExpr.freeVars, hn]))]
  | div l r ihl ihr =>
    intro env1 env2 h
    simp only [RExpr.eval]
    rw [ihl env1 env2 (fun n hn => h n (by simp [RExpr.freeVars, hn])),
        ihr env1 env2 (fun n hn => h n (by simp [RExpr.freeVars, hn]))]

/-! ## Firing a reaction -/

theorem applyReaction_length (S : ℕ) (x : List ℤ) (r : Reaction) :
    (applyReaction S x r).length = S := by
  simp [applyReaction]

theorem applyReaction_getD (S : ℕ) (x : List ℤ) (r : Reaction) (i : ℕ) :
    (applyReaction S x r).getD i 0 = if i < S then x.getD i 0 + rdelta r i else 0 := by
  rw [applyReaction, getD_range_map]

theorem getD_zero_of_ge {x : List ℤ} {i : ℕ} (h : x.length ≤ i) : x.getD i 0 = 0 := by
  simp [List.getD_eq_getElem?_getD, List.getElem?_eq_none h]

/-! ## Sparse-mode locality: an unaffected reaction keeps its propensity -/

theorem rawPropensity_congr_on_reads (net : Network) (params : List (String × ℚ))
    (x y : List ℤ) (r : Reaction)
    (h : ∀ i ∈ readSpecies net r, x.getD i 0 = y.getD i 0) :
    rawPropensity net params x r = rawPropensity net params y r := by
  cases hr : r.rate with
  | const c =>
    simp only [rawPropensity, hr]
    have : lmaFactor (fun i => x.getD i 0) r.reactants
        = lmaFactor (fun i => y.getD i 0) r.reactants :=
      lmaFactor_congr r.reactants _ _ (fun s hs => h s (by simp [readSpecies, hs]))
    rw [this]
  | expr e =>
    simp only [rawPropensity, hr]
    apply eval_congr
    intro n hn
    simp only [resolveEnv]
    cases hidx : net.species.findIdx? (· == n) with
    | none => simp
    | some i =>
      have hi : i ∈ readSpecies net r := by
        simp only [readSpecies, hr, List.mem_append]
        right
        exact List.mem_filterMap.mpr ⟨n, hn, hidx⟩
      show ((x.getD i 0 : ℤ) : ℚ) = ((y.getD i 0 : ℤ) : ℚ)
      rw [h i hi]

theorem effPropensity_of_not_dependsOn (net : Network) (params : List (String × ℚ))
    (x : List ℤ) (fired r : Reaction) (hx : x.length = net.species.length)
    (hdep : dependsOn net r fired = false) :
    effPropensity net params (applyReaction net.species.length x fired) r
      = effPropensity net params x r := by
  unfold effPropensity
  congr 1
  apply rawPropensity_congr_on_reads
  intro i hi
  have hzero : rdelta fired i = 0 := by
    have := List.any_eq_false.mp hdep i hi
    simpa using this
  rw [applyReaction_getD]
  by_cases hiS : i < net.species.length
  · simp [hiS, hzero]
  · rw [if_neg hiS, getD_zero_of_ge (by omega)]

/-! ## Zip bookkeeping of the sparse loop -/

theorem sparseProps_zip (net : Network) (params : List (String × ℚ)) (x x2 : List ℤ)
    (fired : Reaction) :
    ∀ l : List Reaction,
    (l.zip (l.map (effPropensity net params x))).map
        (fun ra => if dependsOn net ra.1 fired then effPropensity net params x2 ra.1 else ra.2)
      = l.map (fun r => if dependsOn net r fired then effPropensity net params x2 r
          else effPropensity net params x r) := by
  intro l
  induction l with
  | nil => rfl
  | cons a rest ih =>
    simp only [List.map_cons, List.zip_cons_cons]
    rw [ih]

theorem sparseTotal_zip (net : Network) (params : List (String × ℚ)) (x x2 : List ℤ)
    (fired : Reaction) :
    ∀ l : List Reaction,
    ((l.zip (l.map (effPropensity net params x))).map
        (fun ra => if dependsOn net ra.1 fired then effPropensity net params x2 ra.1 - ra.2
          else 0)).sum
      = (l.map (fun r => if dependsOn net r fired then effPropensity net params x2 r
          else effPropensity net params x r)).sum
        - (l.map (effPropensity net params x)).sum := by
  intro l
  induction l with
  | nil => simp
  | cons a rest ih =>
    simp only [List.map_cons, List.zip_cons_cons, List.sum_cons]
    rw [ih]
    by_cases hP : dependsOn net a fired
    · rw [if_pos hP, if_pos hP]
      ring
    · rw [if_neg hP, if_neg hP]
      ring

theorem sparseStepProps_eq (net : Network) (params : List (String × ℚ)) (x : List ℤ)
    (fired : Reaction) (hx : x.length = net.species.length) :
    sparseStepProps net params (applyReaction net.species.length x fired) fired
        (propsOf net params x)
      = propsOf net params (applyReaction net.species.length x fired) := by
  unfold sparseStepProps propsOf
  rw [sparseProps_zip]
  apply List.map_congr_left
  intro r _
  by_cases hdep : dependsOn net r fired
  · simp [hdep]
  · rw [if_neg (by simpa using hdep)]
    exact (effPropensity_of_not_dependsOn net params x fired r hx (by simpa using hdep)).symm

theorem sparseStepTotal_eq (net : Network) (params : List (String × ℚ)) (x : List ℤ)
    (fired : Reaction) (hx : x.length = net.species.length) :
    sparseStepTotal net params (applyReaction net.species.length x fired) fired
        (propsOf net params x) (propsOf net params x).sum
      = (propsOf net params (applyReaction net.species.length x fired)).sum := by
  have hp := sparseStepProps_eq net params x fired hx
  unfold sparseStepProps at hp
  unfold sparseStepTotal
  rw [propsOf] at hp ⊢
  rw [sparseTotal_zip, hp.symm, sparseProps_zip]
  ring

/-! ## The sparse loop refines the dense loop -/

theorem loopSparse_eq_loopDense (net : Network) (params : List (String × ℚ))
    (tmax : ℚ) (gridMode : Bool) :
    ∀ fuel t (x : List ℤ) rng, x.length = net.species.length →
    loopSparse net params tmax gridMode fuel t x rng
        (propsOf net params x) (propsOf net params x).sum
      = loopDense net params tmax gridMode fuel t x rng := by
  intro fuel
  induction fuel with
  | zero => intro t x rng _; rfl
  | succ n ih =>
    intro t x rng hx
    rw [loopSparse, loopDense]
    have hA : (propsOf net params x).sum = totalOf net params x := rfl
    by_cases h1 : totalOf net params x ≤ 0
    · rw [if_pos (by rw [hA]; exact h1), if_pos h1]
    · rw [if_neg (by rw [hA]; exact h1), if_neg h1]
      have hteq : t + negLn (u1Of rng) / (propsOf net params x).sum
          = t + tauOf net params x rng := rfl
      have hsel : select (propsOf net params x) (u2Of rng * (propsOf net params x).sum)
          = chosenIdx net params x rng := rfl
      by_cases h2 : gridMode = true ∧ tmax < t + tauOf net params x rng
      · rw [if_pos (by rw [hteq]; exact h2), if_pos h2]
      · rw [if_neg (by rw [hteq]; exact h2), if_neg h2]
        by_cases h3 : gridMode = false ∧ tmax < t + tauOf net params x rng
        · rw [if_pos (by rw [hteq]; exact h3), if_pos h3]
          rw [hteq, hsel]
          rfl
        · rw [if_neg (by rw [hteq]; exact h3), if_neg h3]
          rw [hteq, hsel]
          rw [sparseStepProps_eq net params x _ hx, sparseStepTotal_eq net params x _ hx]
          rw [ih (t + tauOf net params x rng) _ (rngAfter2 rng) (by rw [applyReaction_length])]
          rfl

theorem initState_length (net : Network) (init : List (String × ℤ)) :
    (initState net init).length = (frozenNet net init).species.length := by
  simp [initState]

theorem loopChosen_eq_dense (net : Network) (params : List (String × ℚ)) (tmax : ℚ)
    (nbSteps : ℕ) (seed : ℕ) (b : Bool) (x0 : List ℤ) (fuel : ℕ)
    (hx : x0.length = net.species.length) :
    loopChosen net params tmax nbSteps seed b x0 fuel
      = loopDense net params tmax (gridModeOf nbSteps) fuel 0 x0 (initialRng seed) := by
  cases b
  · rfl
  · exact loopSparse_eq_loopDense net params tmax (gridModeOf nbSteps) fuel 0 x0
      (initialRng seed) hx

/-- C2: for every network, init, tmax, nb_steps and seed, running with
`sparse = true`, `sparse = false` or `sparse = none` (heuristic choice)
produces identical trajectories: the results (times and all per-species
series) are equal. -/
theorem c2_sparse_dense_auto_agree (net : Network) (init : List (String × ℤ)) (tmax : ℚ)
    (nbSteps : ℕ) (params : List (String × ℚ)) (seed : ℕ) (varNames : Option (List String))
    (fuel : ℕ) :
    runSim net init tmax nbSteps params seed (some true) varNames fuel
        = runSim net init tmax nbSteps params seed (some false) varNames fuel
      ∧ runSim net init tmax nbSteps params seed none varNames fuel
        = runSim net init tmax nbSteps params seed (some false) varNames fuel := by
  unfold runSim runLoopOut
  have hx := initState_length net init
  constructor
  · congr 1
    rw [loopChosen_eq_dense _ _ _ _ _ _ _ _ hx, loopChosen_eq_dense _ _ _ _ _ _ _ _ hx]
  · congr 1
    rw [loopChosen_eq_dense _ _ _ _ _ _ _ _ hx, loopChosen_eq_dense _ _ _ _ _ _ _ _ hx]

/-! ## Relational semantics of the driver loop (spec §4.4 state machine)

The loop is specified as a relation so that determinism is a theorem
rather than a definitional triviality: selection is specified by `SelRel`
(smallest index reaching the threshold) and each transition guard is a
proposition. -/

inductive LoopRel (net : Network) (params : List (String × ℚ)) (tmax : ℚ) (gridMode : Bool) :
    ℕ → ℚ → List ℤ → ℕ → List (ℚ × List ℤ) × Bool × List ℤ → Prop where
  | capped (t : ℚ) (x : List ℤ) (rng : ℕ) :
      LoopRel net params tmax gridMode 0 t x rng ([], false, x)
  | exhausted (fuel : ℕ) (t : ℚ) (x : List ℤ) (rng : ℕ)
      (hA : totalOf net params x ≤ 0) :
      LoopRel net params tmax gridMode (fuel + 1) t x rng ([], true, x)
  | gridStop (fuel : ℕ) (t : ℚ) (x : List ℤ) (rng : ℕ)
      (hA : 0 < totalOf net params x)
      (hg : gridMode = true)
      (ht : tmax < t + tauOf net params x rng) :
      LoopRel net params tmax gridMode (fuel + 1) t x rng ([], false, x)
  | fireStop (fuel : ℕ) (t : ℚ) (x : List ℤ) (rng : ℕ) (k : ℕ)
      (hA : 0 < totalOf net params x)
      (hg : gridMode = false)
      (ht : tmax < t + tauOf net params x rng)
      (hk : SelRel (propsOf net params x) (targetOf net params x rng) k) :
      LoopRel net params tmax gridMode (fuel + 1) t x rng
        ([(t + tauOf net params x rng,
           applyReaction net.species.length x (net.reactions.getD k default))], false,
         applyReaction net.species.length x (net.reactions.getD k default))
  | fireCont (fuel : ℕ) (t : ℚ) (x : List ℤ) (rng : ℕ) (k : ℕ)
      (rest : List (ℚ × List ℤ) × Bool × List ℤ)
      (hA : 0 < totalOf net params x)
      (ht : t + tauOf net params x rng ≤ tmax)
      (hk : SelRel (propsOf net params x) (targetOf net params x rng) k)
      (hrest : LoopRel net params tmax gridMode fuel (t + tauOf net params x rng)
        (applyReaction net.species.length x (net.reactions.getD k default))
        (rngAfter2 rng) rest) :
      LoopRel net params tmax gridMode (fuel + 1) t x rng
        ((t + tauOf net params x rng,
          applyReaction net.species.length x (net.reactions.getD k default)) :: rest.1,
         rest.2.1, rest.2.2)

theorem loopRel_det (net : Network) (params : List (String × ℚ)) (tmax : ℚ)
    (gridMode : Bool) :
    ∀ fuel t (x : List ℤ) rng o1 o2, LoopRel net params tmax gridMode fuel t x rng o1 →
      LoopRel net params tmax gridMode fuel t x rng o2 → o1 = o2 := by
  intro fuel t x rng o1 o2 h1
  induction h1 generalizing o2 with
  | capped t x rng =>
    intro h2
    cases h2
    rfl
  | exhausted fuel t x rng hA =>
    intro h2
    cases h2 with
    | exhausted => rfl
    | gridStop _ _ _ _ hA2 => linarith
    | fireStop _ _ _ _ _ hA2 => linarith
    | fireCont _ _ _ _ _ _ hA2 => linarith
  | gridStop fuel t x rng hA hg ht =>
    intro h2
    cases h2 with
    | exhausted _ _ _ _ hA2 => linarith
    | gridStop => rfl
    | fireStop _ _ _ _ _ _ hg2 => rw [hg] at hg2; exact absurd hg2 (by simp)
    | fireCont _ _ _ _ _ _ _ ht2 => linarith
  | fireStop fuel t x rng k hA hg ht hk =>
    intro h2
    cases h2 with
    | exhausted _ _ _ _ hA2 => linarith
    | gridStop _ _ _ _ _ hg2 => rw [hg] at hg2; exact absurd hg2 (by simp)
    | fireStop _ _ _ _ k2 _ _ _ hk2 => rw [selRel_unique hk hk2]
    | fireCont _ _ _ _ _ _ _ ht2 => linarith
  | fireCont fuel t x rng k rest hA ht hk hrest ih =>
    intro h2
    cases h2 with
    | exhausted _ _ _ _ hA2 => linarith
    | gridStop _ _ _ _ _ _ ht2 => linarith
    | fireStop _ _ _ _ _ _ _ ht2 => linarith
    | fireCont _ _ _ _ k2 rest2 _ _ hk2 hrest2 =>
      have hkk : k = k2 := selRel_unique hk hk2
      subst hkk
      rw [ih rest2 hrest2]

theorem chosenIdx_selRel (net : Network) (params : List (String × ℚ)) (x : List ℤ)
    (rng : ℕ) (hA : 0 < totalOf net params x) :
    SelRel (propsOf net params x) (targetOf net params x rng) (chosenIdx net params x rng) := by
  apply selRel_select
  · exact mul_pos (toUniform_pos _) hA
  · calc targetOf net params x rng
        = u2Of rng * totalOf net params x := rfl
      _ ≤ 1 * totalOf net params x := by
          apply mul_le_mul_of_nonneg_right (le_of_lt (toUniform_lt_one _)) (le_of_lt hA)
      _ = (propsOf net params x).sum := by rw [one_mul]; rfl

theorem loopDense_rel (net : Network) (params : List (String × ℚ)) (tmax : ℚ)
    (gridMode : Bool) :
    ∀ fuel t (x : List ℤ) rng,
      LoopRel net params tmax gridMode fuel t x rng
        (loopDense net params tmax gridMode fuel t x rng) := by
  intro fuel
  induction fuel with
  | zero =>
    intro t x rng
    exact .capped t x rng
  | succ n ih =>
    intro t x rng
    rw [loopDense]
    by_cases h1 : totalOf net params x ≤ 0
    · rw [if_pos h1]
      exact .exhausted n t x rng h1
    · rw [if_neg h1]
      have hA : 0 < totalOf net params x := lt_of_not_le h1
      by_cases h2 : gridMode = true ∧ tmax < t + tauOf net params x rng
      · rw [if_pos h2]
        exact .gridStop n t x rng hA h2.1 h2.2
      · rw [if_neg h2]
        by_cases h3 : gridMode = false ∧ tmax < t + tauOf net params x rng
        · rw [if_pos h3]
          exact .fireStop n t x rng (chosenIdx net params x rng) hA h3.1 h3.2
            (chosenIdx_selRel net params x rng hA)
        · rw [if_neg h3]
          have ht : t + tauOf net params x rng ≤ tmax := by
            by_contra hc
            push_neg at hc
            cases hg : gridMode
            · exact h3 ⟨hg, hc⟩
            · exact h2 ⟨hg, hc⟩
          exact .fireCont n t x rng (chosenIdx net params x rng) _ hA ht
            (chosenIdx_selRel net params x rng hA)
            (ih (t + tauOf net params x rng) (nextState net params x rng) (rngAfter2 rng))

/-- The `run` relation: the loop-level relation wrapped with the (purely
functional) validation and output assembly; an output is related to the
inputs iff some loop derivation produces it.  `run`'s output is a pure
function of the argument tuple exactly when this relation is total and
deterministic. -/
def RunRel (net : Network) (init : List (String × ℤ)) (tmax : ℚ) (nbSteps : ℕ)
    (params : List (String × ℚ)) (seed : ℕ) (varNames : Option (List String))
    (fuel : ℕ) (out : Except RunError RunResult) : Prop :=
  ∃ lo, LoopRel (frozenNet net init) params tmax (gridModeOf nbSteps) fuel 0
      (initState net init) (initialRng seed) lo
    ∧ out = runAssemble net init tmax nbSteps params varNames lo

theorem runRel_runSim (net : Network) (init : List (String × ℤ)) (tmax : ℚ) (nbSteps : ℕ)
    (params : List (String × ℚ)) (seed : ℕ) (sparse : Option Bool)
    (varNames : Option (List String)) (fuel : ℕ) :
    RunRel net init tmax nbSteps params seed varNames fuel
      (runSim net init tmax nbSteps params seed sparse varNames fuel) := by
  refine ⟨loopDense (frozenNet net init) params tmax (gridModeOf nbSteps) fuel 0
      (initState net init) (initialRng seed), loopDense_rel _ _ _ _ _ _ _ _, ?_⟩
  unfold runSim runLoopOut
  congr 1
  exact loopChosen_eq_dense _ _ _ _ _ _ _ _ (initState_length net init)

/-- C1: determinism.  The outcome of `run` is related to the inputs by the
run relation (derived from the spec's §4.4 state machine, with selection
specified as "smallest index reaching the threshold"), and that relation
is deterministic: for a fixed tuple of inputs (network in declaration
order, init, tmax, nb_steps, params, seed, sparse, var_names), any two
invocations produce identical outputs (same times and same per-species
series).  The adequacy conjunct holds for every `sparse` flag, so the two
invocations may even choose different layouts. -/
theorem c1_run_deterministic (net : Network) (init : List (String × ℤ)) (tmax : ℚ)
    (nbSteps : ℕ) (params : List (String × ℚ)) (seed : ℕ) (sparse : Option Bool)
    (varNames : Option (List String)) (fuel : ℕ) :
    RunRel net init tmax nbSteps params seed varNames fuel
        (runSim net init tmax nbSteps params seed sparse varNames fuel)
      ∧ ∀ o1 o2, RunRel net init tmax nbSteps params seed varNames fuel o1 →
          RunRel net init tmax nbSteps params seed varNames fuel o2 → o1 = o2 := by
  constructor
  · exact runRel_runSim net init tmax nbSteps params seed sparse varNames fuel
  · rintro o1 o2 ⟨lo1, h1, e1⟩ ⟨lo2, h2, e2⟩
    rw [e1, e2, loopRel_det _ _ _ _ _ _ _ _ _ _ h1 h2]

/-- Witness for C1 at a concrete input: the empty network on a 10-step
grid; the unique related output is computed by exhibiting the loop
derivation (immediate exhaustion) by hand. -/
theorem c1_run_deterministic_witness :
    runSim ⟨[], []⟩ [] 10 10 [] 0 (some false) none 1
      = .ok ⟨false, gridTimes 10 10, []⟩ := by
  have h := c1_run_deterministic ⟨[], []⟩ [] 10 10 [] 0 (some false) none 1
  exact h.2 _ _ h.1
    ⟨([], true, initState ⟨[], []⟩ []),
     LoopRel.exhausted 0 0 (initState ⟨[], []⟩ []) (initialRng 0) (le_of_eq rfl),
     rfl⟩

/-! ## Inversion of a successful run -/

theorem runSim_ok_inv {net : Network} {init : List (String × ℤ)} {tmax : ℚ} {nbSteps : ℕ}
    {params : List (String × ℚ)} {seed : ℕ} {sparse : Option Bool}
    {varNames : Option (List String)} {fuel : ℕ} {res : RunResult}
    (h : runSim net init tmax nbSteps params seed sparse varNames fuel = .ok res) :
    res = ⟨initWarning net init,
           (outRows nbSteps tmax (initState net init)
             (runLoopOut net init tmax nbSteps params seed sparse fuel)).1,
           columnsOf (frozenNet net init) varNames
             (outRows nbSteps tmax (initState net init)
               (runLoopOut net init tmax nbSteps params seed sparse fuel)).2⟩
      ∧ ¬ tmax ≤ 0
      ∧ init.find? (fun p => decide (p.2 < 0)) = none
      ∧ (missingNames (frozenNet net init) params).head? = none
      ∧ (collidingParams (frozenNet net init) params).head? = none
      ∧ varNames.bind
          (fun vs => vs.find? (fun n => !(decide (n ∈ (frozenNet net init).species)))) = none := by
  unfold runSim runAssemble at h
  split at h
  · exact absurd h (by simp)
  · split at h
    · exact absurd h (by simp)
    · split at h
      · exact absurd h (by simp)
      · split at h
        · exact absurd h (by simp)
        · split at h
          · exact absurd h (by simp)
          · refine ⟨(Except.ok.inj h).symm, by assumption, by assumption, by assumption,
              by assumption, by assumption⟩

/-- C3: on every successful run with `nb_steps = N ≥ 1`, the returned times
array has exactly `N + 1` entries and equals the uniform grid
`t_k = k · tmax / N`, `k ∈ 0..N` (`linspace(0, tmax, N+1)` exactly),
regardless of the network, init, params, seed, layout or fuel. -/
theorem c3_grid_times (net : Network) (init : List (String × ℤ)) (tmax : ℚ) (nbSteps : ℕ)
    (params : List (String × ℚ)) (seed : ℕ) (sparse : Option Bool)
    (varNames : Option (List String)) (fuel : ℕ) (res : RunResult)
    (hN : 1 ≤ nbSteps)
    (h : runSim net init tmax nbSteps params seed sparse varNames fuel = .ok res) :
    res.times.length = nbSteps + 1
      ∧ res.times = (List.range (nbSteps + 1)).map
          (fun (k : ℕ) => (((k : ℚ) * tmax / (nbSteps : ℚ) : ℚ) : WithTop ℚ)) := by
  obtain ⟨hres, -⟩ := runSim_ok_inv h
  have htimes : res.times = gridTimes nbSteps tmax := by
    rw [hres]
    unfold outRows
    rw [if_neg (by omega)]
  constructor
  · rw [htimes]
    simp only [gridTimes, List.length_map, List.length_range]
  · rw [htimes]
    rfl

/-- Witness for C3 at a concrete input: the empty network, `tmax = 10`,
`nb_steps = 10` (the `test_run_empty` scenario): the times are
`[0, 1, …, 10]`. -/
theorem c3_grid_times_witness :
    (⟨false, gridTimes 10 10, []⟩ : RunResult).times.length = 10 + 1
      ∧ (⟨false, gridTimes 10 10, []⟩ : RunResult).times = (List.range (10 + 1)).map
          (fun (k : ℕ) => (((k : ℚ) * (10 : ℚ) / ((10 : ℕ) : ℚ) : ℚ) : WithTop ℚ)) :=
  c3_grid_times ⟨[], []⟩ [] 10 10 [] 0 (some false) none 1 ⟨false, gridTimes 10 10, []⟩
    (by norm_num) rfl

/-- C6: for every reaction with a numeric rate constant `c` and every
state `x`, the mass-action propensity equals `c` times the product over
the distinct reactant species of the falling factorial
`x·(x−1)·…·(x−n+1)` at the reactant's multiplicity `n` — with no division
by `n!`; in particular a reaction with reactant list `A + A` contributes
`c · x[A] · (x[A] − 1)`. -/
theorem c6_mass_action_falling_factorial (net : Network) (params : List (String × ℚ))
    (x : List ℤ) (re pr : List ℕ) (c : ℚ) :
    rawPropensity net params x ⟨re, pr, .const c⟩
        = c * ((∏ s ∈ re.toFinset, fallProd (x.getD s 0) (re.count s) : ℤ) : ℚ)
      ∧ ∀ a : ℕ, rawPropensity net params x ⟨[a, a], pr, .const c⟩
          = c * ((x.getD a 0 * (x.getD a 0 - 1) : ℤ) : ℚ) := by
  constructor
  · simp only [rawPropensity]
    rw [lmaFactor_eq_prod]
  · intro a
    simp only [rawPropensity]
    have : lmaFactor (fun i => x.getD i 0) [a, a] = x.getD a 0 * (x.getD a 0 - 1) := by
      simp [lmaFactor]
    rw [this]

/-! ## Validation claims -/

theorem find?_neg_none {init : List (String × ℤ)} (hinit : ∀ p ∈ init, 0 ≤ p.2) :
    init.find? (fun p => decide (p.2 < 0)) = none :=
  List.find?_eq_none.mpr (fun p hp => by simpa using not_lt.mpr (hinit p hp))

/-- C7: a run whose rate expressions reference a free name that is neither
a declared species (after init interning) nor a key of `params` fails at
entry with `MissingParameter` naming such an identifier; the same run with
the missing parameters supplied (and no other validation defect: positive
`tmax`, non-negative init, no species/parameter collision, valid
`var_names`) completes successfully. -/
theorem c7_missing_parameter (net : Network) (init : List (String × ℤ)) (tmax : ℚ)
    (nbSteps : ℕ) (params params2 : List (String × ℚ)) (seed : ℕ) (sparse : Option Bool)
    (varNames : Option (List String)) (fuel : ℕ) (n : String)
    (htmax : 0 < tmax)
    (hinit : ∀ p ∈ init, 0 ≤ p.2)
    (hn : n ∈ exprNames (frozenNet net init))
    (hnsp : n ∉ (frozenNet net init).species)
    (hnp : params.lookup n = none) :
    (∃ m, runSim net init tmax nbSteps params seed sparse varNames fuel
        = .error (.missingParameter m)
      ∧ m ∈ exprNames (frozenNet net init)
      ∧ m ∉ (frozenNet net init).species
      ∧ params.lookup m = none)
    ∧ ((∀ m ∈ exprNames (frozenNet net init),
          m ∈ (frozenNet net init).species ∨ (params2.lookup m).isSome)
        → (∀ p ∈ params2, p.1 ∉ (frozenNet net init).species)
        → (∀ vs, varNames = some vs → ∀ v ∈ vs, v ∈ (frozenNet net init).species)
        → ∃ res, runSim net init tmax nbSteps params2 seed sparse varNames fuel = .ok res) := by
  have hfind := find?_neg_none hinit
  constructor
  · have hmem : n ∈ missingNames (frozenNet net init) params := by
      rw [missingNames, List.mem_filter]
      exact ⟨hn, by simp [hnsp, hnp]⟩
    obtain ⟨m, hm⟩ : ∃ m, (missingNames (frozenNet net init) params).head? = some m := by
      cases hcase : missingNames (frozenNet net init) params with
      | nil => rw [hcase] at hmem; exact absurd hmem (by simp)
      | cons a l => exact ⟨a, rfl⟩
    have hmmem : m ∈ missingNames (frozenNet net init) params := head?_mem hm
    rw [missingNames, List.mem_filter] at hmmem
    obtain ⟨hm1, hm2⟩ := hmmem
    simp only [Bool.and_eq_true, Bool.not_eq_true', decide_eq_false_iff_not,
      Option.isNone_iff_eq_none] at hm2
    refine ⟨m, ?_, hm1, hm2.1, hm2.2⟩
    simp only [runSim, runAssemble, if_neg (not_le.mpr htmax), hfind, hm]
  · intro hcover hnocol hvn
    have hmiss : missingNames (frozenNet net init) params2 = [] := by
      rw [missingNames, List.filter_eq_nil_iff]
      intro m hmm
      rcases hcover m hmm with hc | hc
      · simp [hc]
      · obtain ⟨v, hv⟩ := Option.isSome_iff_exists.mp hc
        simp [hv]
    have hcol : collidingParams (frozenNet net init) params2 = [] := by
      rw [collidingParams, List.filter_eq_nil_iff]
      intro m hmm
      obtain ⟨p, hp, hp1⟩ := List.mem_map.mp hmm
      subst hp1
      simp [hnocol p hp]
    have hvn2 : varNames.bind
        (fun vs => vs.find? (fun n => !(decide (n ∈ (frozenNet net init).species)))) = none := by
      cases hv : varNames with
      | none => rfl
      | some vs =>
        show vs.find? (fun n => !(decide (n ∈ (frozenNet net init).species))) = none
        rw [List.find?_eq_none]
        intro v hvv
        simpa using hvn vs hv v hvv
    have hrun : runSim net init tmax nbSteps params2 seed sparse varNames fuel
        = .ok ⟨initWarning net init,
               (outRows nbSteps tmax (initState net init)
                 (runLoopOut net init tmax nbSteps params2 seed sparse fuel)).1,
               columnsOf (frozenNet net init) varNames
                 (outRows nbSteps tmax (initState net init)
                   (runLoopOut net init tmax nbSteps params2 seed sparse fuel)).2⟩ := by
      simp only [runSim, runAssemble, if_neg (not_le.mpr htmax), hfind, hmiss, hcol, hvn2,
        List.head?_nil]
    exact ⟨_, hrun⟩

/-- C8: a run whose `params` mapping contains a key that is also a
declared species name is rejected with `ParameterNameCollidesWithSpecies`
for such a name, even when no rate expression references it (in
particular for networks with only numeric rates, for which the premise on
referenced names holds vacuously). -/
theorem c8_param_collides_species (net : Network) (init : List (String × ℤ)) (tmax : ℚ)
    (nbSteps : ℕ) (params : List (String × ℚ)) (seed : ℕ) (sparse : Option Bool)
    (varNames : Option (List String)) (fuel : ℕ) (p : String × ℚ)
    (htmax : 0 < tmax)
    (hinit : ∀ q ∈ init, 0 ≤ q.2)
    (hmiss : ∀ m ∈ exprNames (frozenNet net init),
      m ∈ (frozenNet net init).species ∨ (params.lookup m).isSome)
    (hp : p ∈ params)
    (hps : p.1 ∈ (frozenNet net init).species) :
    ∃ m, runSim net init tmax nbSteps params seed sparse varNames fuel
        = .error (.parameterCollidesWithSpecies m)
      ∧ m ∈ params.map Prod.fst ∧ m ∈ (frozenNet net init).species := by
  have hfind := find?_neg_none hinit
  have hmn : missingNames (frozenNet net init) params = [] := by
    rw [missingNames, List.filter_eq_nil_iff]
    intro m hmm
    rcases hmiss m hmm with hc | hc
    · simp [hc]
    · obtain ⟨v, hv⟩ := Option.isSome_iff_exists.mp hc
      simp [hv]
  have hmem : p.1 ∈ collidingParams (frozenNet net init) params := by
    rw [collidingParams, List.mem_filter]
    exact ⟨List.mem_map.mpr ⟨p, hp, rfl⟩, by simp [hps]⟩
  obtain ⟨m, hm⟩ : ∃ m, (collidingParams (frozenNet net init) params).head? = some m := by
    cases hcase : collidingParams (frozenNet net init) params with
    | nil => rw [hcase] at hmem; exact absurd hmem (by simp)
    | cons a l => exact ⟨a, rfl⟩
  have hmmem : m ∈ collidingParams (frozenNet net init) params := head?_mem hm
  rw [collidingParams, List.mem_filter] at hmmem
  refine ⟨m, ?_, hmmem.1, by simpa using hmmem.2⟩
  simp only [runSim, runAssemble, if_neg (not_le.mpr htmax), hfind, hmn, List.head?_nil, hm]

/-- The `test_parameters` network `∅ → A @ "k"`. -/
def kNet : Network :=
  addReaction ⟨[], []⟩ (.expr (.var "k")) [] ["A"] none

/-- The `test_parameters` network `A → B @ 4`. -/
def abNet : Network :=
  addReaction ⟨[], []⟩ (.const 4) ["A"] ["B"] none

/-- Witness for C7 at the `test_parameters` scenario: `∅ → A @ "k"` with no
params fails with `MissingParameter "k"`; with `k` supplied it runs. -/
theorem c7_missing_parameter_witness :
    (∃ m, runSim kNet [] 10 10 [] 0 (some false) none 1 = .error (.missingParameter m)
      ∧ m ∈ exprNames (frozenNet kNet []) ∧ m ∉ (frozenNet kNet []).species
      ∧ List.lookup m ([] : List (String × ℚ)) = none)
    ∧ ∃ res, runSim kNet [] 10 10 [("k", 0)] 0 (some false) none 1 = .ok res := by
  have h := c7_missing_parameter kNet [] 10 10 [] [("k", 0)] 0 (some false) none 1 "k"
    (by norm_num) (by simp) (by decide) (by decide) rfl
  exact ⟨h.1, h.2 (by decide) (by decide) (fun vs hv => by cases hv)⟩

/-- Witness for C8 at the `test_parameters` scenario: `A → B @ 4` with
`params = {"B": 4.2}` is rejected with `ParameterNameCollidesWithSpecies`,
although no rate expression references `B` (the network is numeric-rate
only). -/
theorem c8_param_collides_species_witness :
    ∃ m, runSim abNet [] 10 10 [("B", (21 : ℚ)/5)] 0 (some false) none 1
        = .error (.parameterCollidesWithSpecies m)
      ∧ m ∈ [("B", (21 : ℚ)/5)].map Prod.fst ∧ m ∈ (frozenNet abNet []).species :=
  c8_param_collides_species abNet [] 10 10 [("B", (21 : ℚ)/5)] 0 (some false) none 1
    ("B", (21 : ℚ)/5) (by norm_num) (by simp) (by decide) (List.mem_cons_self _ _) (by decide)

/-! ## Event-mode trajectory shape -/

theorem getLast?_cons_eq_some {α : Type} (a : α) (l : List α) :
    (a :: l).getLast? = some (l.getLast?.getD a) := by
  induction l generalizing a with
  | nil => rfl
  | cons b m ih =>
    rw [List.getLast?_cons_cons, ih b]
    simp

theorem dropLast_map {α β : Type} (f : α → β) (l : List α) :
    (l.map f).dropLast = l.dropLast.map f := by
  induction l with
  | nil => rfl
  | cons a m ih =>
    cases m with
    | nil => rfl
    | cons b k =>
      simp only [List.map_cons, List.dropLast_cons₂, ← ih, List.map_cons]

theorem getLast?_map {α β : Type} (f : α → β) (l : List α) :
    (l.map f).getLast? = l.getLast?.map f := by
  induction l with
  | nil => rfl
  | cons a m ih =>
    rw [List.map_cons, getLast?_cons_eq_some, getLast?_cons_eq_some, ih]
    cases m.getLast? with
    | none => rfl
    | some v => rfl

theorem loop_times_chain (net : Network) (params : List (String × ℚ)) (tmax : ℚ)
    (gridMode : Bool) :
    ∀ fuel t (x : List ℤ) rng,
      List.Chain (· < ·) t
        ((loopDense net params tmax gridMode fuel t x rng).1.map Prod.fst) := by
  intro fuel
  induction fuel with
  | zero => intro t x rng; exact List.Chain.nil
  | succ n ih =>
    intro t x rng
    rw [loopDense]
    by_cases h1 : totalOf net params x ≤ 0
    · rw [if_pos h1]; exact List.Chain.nil
    · rw [if_neg h1]
      have hA : 0 < totalOf net params x := lt_of_not_le h1
      have htau : t < t + tauOf net params x rng := by
        have := tauOf_pos net params x rng hA
        linarith
      by_cases h2 : gridMode = true ∧ tmax < t + tauOf net params x rng
      · rw [if_pos h2]; exact List.Chain.nil
      · rw [if_neg h2]
        by_cases h3 : gridMode = false ∧ tmax < t + tauOf net params x rng
        · rw [if_pos h3]
          exact List.Chain.cons htau List.Chain.nil
        · rw [if_neg h3]
          exact List.Chain.cons htau (ih _ _ _)

theorem loop_final_eq_last (net : Network) (params : List (String × ℚ)) (tmax : ℚ)
    (gridMode : Bool) :
    ∀ fuel t (x : List ℤ) rng,
      (loopDense net params tmax gridMode fuel t x rng).2.2
        = ((loopDense net params tmax gridMode fuel t x rng).1.map Prod.snd).getLast?.getD x := by
  intro fuel
  induction fuel with
  | zero => intro t x rng; rfl
  | succ n ih =>
    intro t x rng
    rw [loopDense]
    by_cases h1 : totalOf net params x ≤ 0
    · rw [if_pos h1]; rfl
    · rw [if_neg h1]
      by_cases h2 : gridMode = true ∧ tmax < t + tauOf net params x rng
      · rw [if_pos h2]; rfl
      · rw [if_neg h2]
        by_cases h3 : gridMode = false ∧ tmax < t + tauOf net params x rng
        · rw [if_pos h3]; rfl
        · rw [if_neg h3]
          unfold consEvent
          simp only [List.map_cons]
          rw [getLast?_cons_eq_some]
          simp only [Option.getD_some]
          exact ih _ _ _

theorem runLoopOut_eq_dense (net : Network) (init : List (String × ℤ)) (tmax : ℚ)
    (nbSteps : ℕ) (params : List (String × ℚ)) (seed : ℕ) (sparse : Option Bool) (fuel : ℕ) :
    runLoopOut net init tmax nbSteps params seed sparse fuel
      = loopDense (frozenNet net init) params tmax (gridModeOf nbSteps) fuel 0
          (initState net init) (initialRng seed) := by
  unfold runLoopOut
  exact loopChosen_eq_dense _ _ _ _ _ _ _ _ (initState_length net init)

/-- C5: in event mode (`nb_steps = 0`), a successful run's times start at
0 and are strictly increasing; a `+∞` sentinel can only sit at the very
last position (strict monotonicity forbids it anywhere else), and when it
is present the sentinel row repeats the final state, i.e. every recorded
series ends with two equal entries. -/
theorem c5_event_mode_times (net : Network) (init : List (String × ℤ)) (tmax : ℚ)
    (nbSteps : ℕ) (params : List (String × ℚ)) (seed : ℕ) (sparse : Option Bool)
    (varNames : Option (List String)) (fuel : ℕ) (res : RunResult)
    (hN : nbSteps = 0)
    (h : runSim net init tmax nbSteps params seed sparse varNames fuel = .ok res) :
    res.times.head? = some ((0 : ℚ) : WithTop ℚ)
    ∧ res.times.Chain' (· < ·)
    ∧ ((⊤ : WithTop ℚ) ∈ res.times →
        res.times.getLast? = some ⊤
        ∧ ∀ p ∈ res.series, p.2.getLast? = p.2.dropLast.getLast?) := by
  subst hN
  obtain ⟨hres, -⟩ := runSim_ok_inv h
  have hloD := runLoopOut_eq_dense net init tmax 0 params seed sparse fuel
  -- abbreviations
  set net2 := frozenNet net init with hnet2
  set x0 := initState net init with hx0
  set lo := loopDense net2 params tmax (gridModeOf 0) fuel 0 x0 (initialRng seed) with hlodef
  have htimes : res.times
      = ((0 : ℚ) : WithTop ℚ) :: (lo.1.map (fun e => ((e.1 : ℚ) : WithTop ℚ))
        ++ (if lo.2.1 then [(⊤ : WithTop ℚ)] else [])) := by
    rw [hres]
    unfold outRows
    rw [hloD, if_pos rfl]
  have hrows : (outRows 0 tmax x0 (runLoopOut net init tmax 0 params seed sparse fuel)).2
      = x0 :: (lo.1.map Prod.snd ++ (if lo.2.1 then [lo.2.2] else [])) := by
    unfold outRows
    rw [hloD, if_pos rfl]
  -- the strictly increasing rational chain from the loop
  have hchain : List.Chain (· < ·) (0 : ℚ) (lo.1.map Prod.fst) :=
    loop_times_chain net2 params tmax (gridModeOf 0) fuel 0 x0 (initialRng seed)
  have hchainTop : List.Chain' (· < ·)
      (((0 : ℚ) : WithTop ℚ) :: lo.1.map (fun e => ((e.1 : ℚ) : WithTop ℚ))) := by
    have hmm : ((0 : ℚ) : WithTop ℚ) :: lo.1.map (fun e => ((e.1 : ℚ) : WithTop ℚ))
        = ((0 : ℚ) :: lo.1.map Prod.fst).map (fun q => ((q : ℚ) : WithTop ℚ)) := by
      rw [List.map_cons, List.map_map]
      rfl
    rw [hmm, List.chain'_map]
    have : List.Chain' (· < ·) ((0 : ℚ) :: lo.1.map Prod.fst) := hchain
    exact this.imp (fun a b hab => WithTop.coe_lt_coe.mpr hab)
  have hcoe_mem : ∀ a ∈ ((0 : ℚ) : WithTop ℚ) :: lo.1.map (fun e => ((e.1 : ℚ) : WithTop ℚ)),
      a < (⊤ : WithTop ℚ) := by
    intro a ha
    rcases List.mem_cons.mp ha with h0 | hm
    · subst h0; exact WithTop.coe_lt_top _
    · obtain ⟨e, -, he⟩ := List.mem_map.mp hm
      rw [← he]
      exact WithTop.coe_lt_top _
  cases hexh : lo.2.1 with
  | false =>
    rw [hexh] at htimes
    rw [if_neg (by simp), List.append_nil] at htimes
    refine ⟨by rw [htimes]; rfl, by rw [htimes]; exact hchainTop, ?_⟩
    intro htop
    rw [htimes] at htop
    exact absurd rfl (ne_of_lt (hcoe_mem ⊤ htop))
  | true =>
    rw [hexh] at htimes
    rw [if_pos rfl] at htimes
    have htimes2 : res.times
        = (((0 : ℚ) : WithTop ℚ) :: lo.1.map (fun e => ((e.1 : ℚ) : WithTop ℚ)))
            ++ [(⊤ : WithTop ℚ)] := by
      rw [htimes, List.cons_append]
    refine ⟨by rw [htimes]; rfl, ?_, ?_⟩
    · rw [htimes2, List.chain'_append]
      refine ⟨hchainTop, by simp, ?_⟩
      intro a ha b hb
      simp only [List.head?_cons, Option.mem_def, Option.some.injEq] at hb
      subst hb
      have hmem : a ∈ ((0 : ℚ) : WithTop ℚ) :: lo.1.map (fun e => ((e.1 : ℚ) : WithTop ℚ)) := by
        rcases List.mem_getLast?_eq_getLast (by exact ha) with ⟨hne, hae⟩
        rw [hae]
        exact List.getLast_mem hne
      exact hcoe_mem a hmem
    · intro _
      constructor
      · rw [htimes2]
        exact List.getLast?_concat _
      · intro p hp
        rw [hres] at hp
        simp only at hp
        rw [hrows, hexh] at hp
        simp only [if_true] at hp
        unfold columnsOf at hp
        obtain ⟨nm, -, hnm⟩ := List.mem_map.mp hp
        have hval : p.2 = (x0 :: (lo.1.map Prod.snd ++ [lo.2.2])).map
            (fun row => row.getD (spIdx net2.species nm) 0) := by
          rw [← hnm]
        set f : List ℤ → ℤ := fun row => row.getD (spIdx net2.species nm) 0 with hf
        have hsplit : (x0 :: (lo.1.map Prod.snd ++ [lo.2.2])).map f
            = ((x0 :: lo.1.map Prod.snd).map f) ++ [f lo.2.2] := by
          simp
        have hfin : lo.2.2 = (lo.1.map Prod.snd).getLast?.getD x0 :=
          loop_final_eq_last net2 params tmax (gridModeOf 0) fuel 0 x0 (initialRng seed)
        rw [hval, hsplit]
        rw [List.getLast?_concat, List.dropLast_concat]
        rw [getLast?_map, getLast?_cons_eq_some]
        simp only [Option.map]
        rw [hfin]

/-- Witness for C5 at a concrete input: the empty network in event mode
exhausts immediately, producing times `[0, +∞]` (the sentinel row repeats
the final state; with no species the series list is empty). -/
theorem c5_event_mode_times_witness :
    (⟨false, [((0 : ℚ) : WithTop ℚ), ⊤], []⟩ : RunResult).times.head?
        = some ((0 : ℚ) : WithTop ℚ)
    ∧ (⟨false, [((0 : ℚ) : WithTop ℚ), ⊤], []⟩ : RunResult).times.Chain' (· < ·)
    ∧ ((⊤ : WithTop ℚ) ∈ (⟨false, [((0 : ℚ) : WithTop ℚ), ⊤], []⟩ : RunResult).times →
        (⟨false, [((0 : ℚ) : WithTop ℚ), ⊤], []⟩ : RunResult).times.getLast? = some ⊤
        ∧ ∀ p ∈ (⟨false, [((0 : ℚ) : WithTop ℚ), ⊤], []⟩ : RunResult).series,
            p.2.getLast? = p.2.dropLast.getLast?) :=
  c5_event_mode_times ⟨[], []⟩ [] 10 0 [] 0 (some false) none 3
    ⟨false, [((0 : ℚ) : WithTop ℚ), ⊤], []⟩ rfl rfl

/-! ## Non-negativity under pure mass action -/

theorem getD_mem_of_lt {α : Type} {l : List α} {i : ℕ} (d : α) (h : i < l.length) :
    l.getD i d ∈ l := by
  rw [List.getD_eq_getElem?_getD, List.getElem?_eq_getElem h]
  exact List.getElem_mem _

theorem getD_nonneg_of_all {row : List ℤ} (hrow : ∀ v ∈ row, 0 ≤ v) (i : ℕ) :
    0 ≤ row.getD i 0 := by
  by_cases hi : i < row.length
  · exact hrow _ (getD_mem_of_lt 0 hi)
  · rw [getD_zero_of_ge (le_of_not_lt hi)]

theorem targetOf_le_sum (net : Network) (params : List (String × ℚ)) (x : List ℤ)
    (rng : ℕ) (hA : 0 < totalOf net params x) :
    targetOf net params x rng ≤ (propsOf net params x).sum := by
  calc targetOf net params x rng
      = u2Of rng * totalOf net params x := rfl
    _ ≤ 1 * totalOf net params x :=
        mul_le_mul_of_nonneg_right (le_of_lt (toUniform_lt_one _)) (le_of_lt hA)
    _ = (propsOf net params x).sum := by rw [one_mul]; rfl

theorem propsOf_getD (net : Network) (params : List (String × ℚ)) (x : List ℤ)
    (k : ℕ) (hk : k < net.reactions.length) :
    (propsOf net params x).getD k 0
      = effPropensity net params x (net.reactions.getD k default) := by
  unfold propsOf
  rw [getD_map_lt _ _ _ _ default hk]

theorem chosen_fired_pos (net : Network) (params : List (String × ℚ)) (x : List ℤ)
    (rng : ℕ) (hA : 0 < totalOf net params x) :
    chosenIdx net params x rng < net.reactions.length
    ∧ 0 < effPropensity net params x
        (net.reactions.getD (chosenIdx net params x rng) default) := by
  have htpos : 0 < targetOf net params x rng := mul_pos (toUniform_pos _) hA
  have htle := targetOf_le_sum net params x rng hA
  have hlen : select (propsOf net params x) (targetOf net params x rng)
      < (propsOf net params x).length := select_lt_length htpos htle
  have hlen2 : chosenIdx net params x rng < net.reactions.length := by
    unfold chosenIdx
    simpa [propsOf] using hlen
  have hpos := select_getD_pos htpos htle
  rw [show select (propsOf net params x) (targetOf net params x rng)
      = chosenIdx net params x rng from rfl, propsOf_getD net params x _ hlen2] at hpos
  exact ⟨hlen2, hpos⟩

theorem fired_keeps_nonneg (net : Network) (params : List (String × ℚ)) (x : List ℤ)
    (r : Reaction) (c : ℚ) (hr : r.rate = RateKind.const c) (hx : ∀ v ∈ x, 0 ≤ v)
    (hpos : 0 < effPropensity net params x r) :
    ∀ v ∈ applyReaction net.species.length x r, 0 ≤ v := by
  have hgd : ∀ i, 0 ≤ x.getD i 0 := getD_nonneg_of_all hx
  have hraw : 0 < rawPropensity net params x r := by
    unfold effPropensity at hpos
    rcases lt_max_iff.mp hpos with hc | hc
    · exact absurd hc (lt_irrefl 0)
    · exact hc
  simp only [rawPropensity, hr] at hraw
  have hfac_nonneg : 0 ≤ lmaFactor (fun i => x.getD i 0) r.reactants :=
    lmaFactor_nonneg (fun s => hgd s) _
  have hfac_pos : 0 < lmaFactor (fun i => x.getD i 0) r.reactants := by
    rcases lt_or_eq_of_le hfac_nonneg with hlt | heq
    · exact hlt
    · rw [← heq] at hraw
      simp at hraw
  have hcounts := count_le_of_lmaFactor_pos (fun s => hgd s) hfac_pos
  intro v hv
  rw [applyReaction] at hv
  obtain ⟨i, -, hiv⟩ := List.mem_map.mp hv
  rw [← hiv]
  have h1 := hcounts i
  have h2 : (0 : ℤ) ≤ r.products.count i := Int.natCast_nonneg _
  unfold rdelta
  linarith [hgd i]

theorem loop_events_nonneg (net : Network) (params : List (String × ℚ)) (tmax : ℚ)
    (gridMode : Bool)
    (hconst : ∀ r ∈ net.reactions, ∃ c, r.rate = RateKind.const c) :
    ∀ fuel t (x : List ℤ) rng, x.length = net.species.length → (∀ v ∈ x, 0 ≤ v) →
      (∀ e ∈ (loopDense net params tmax gridMode fuel t x rng).1, ∀ v ∈ e.2, 0 ≤ v)
      ∧ (∀ v ∈ (loopDense net params tmax gridMode fuel t x rng).2.2, 0 ≤ v) := by
  intro fuel
  induction fuel with
  | zero =>
    intro t x rng _ hx
    exact ⟨by simp [loopDense], by simpa [loopDense] using hx⟩
  | succ n ih =>
    intro t x rng hlen hx
    rw [loopDense]
    by_cases h1 : totalOf net params x ≤ 0
    · rw [if_pos h1]
      exact ⟨by simp, by simpa using hx⟩
    · rw [if_neg h1]
      have hA : 0 < totalOf net params x := lt_of_not_le h1
      obtain ⟨hklen, hkpos⟩ := chosen_fired_pos net params x rng hA
      obtain ⟨c, hc⟩ := hconst _ (getD_mem_of_lt default hklen)
      have hx' : ∀ v ∈ nextState net params x rng, 0 ≤ v :=
        fired_keeps_nonneg net params x _ c hc hx hkpos
      have hlen' : (nextState net params x rng).length = net.species.length :=
        applyReaction_length _ _ _
      by_cases h2 : gridMode = true ∧ tmax < t + tauOf net params x rng
      · rw [if_pos h2]
        exact ⟨by simp, by simpa using hx⟩
      · rw [if_neg h2]
        by_cases h3 : gridMode = false ∧ tmax < t + tauOf net params x rng
        · rw [if_pos h3]
          refine ⟨?_, by simpa using hx'⟩
          intro e he
          rcases List.mem_singleton.mp he with rfl
          simpa using hx'
        · rw [if_neg h3]
          obtain ⟨ihev, ihfin⟩ := ih (t + tauOf net params x rng) (nextState net params x rng)
            (rngAfter2 rng) hlen' hx'
          refine ⟨?_, ihfin⟩
          intro e he
          rcases List.mem_cons.mp he with rfl | he2
          · simpa using hx'
          · exact ihev e he2

theorem stateAt_cases (events : List (ℚ × List ℤ)) :
    ∀ (x0 : List ℤ) (tq : ℚ), stateAt x0 events tq = x0
      ∨ ∃ e ∈ events, stateAt x0 events tq = e.2 := by
  induction events with
  | nil => intro x0 tq; exact Or.inl rfl
  | cons e rest ih =>
    intro x0 tq
    have hstep : stateAt x0 (e :: rest) tq
        = stateAt (if e.1 ≤ tq then e.2 else x0) rest tq := rfl
    rcases ih (if e.1 ≤ tq then e.2 else x0) tq with hcase | ⟨f, hf, hfe⟩
    · by_cases hle : e.1 ≤ tq
      · right
        exact ⟨e, by simp, by rw [hstep, hcase, if_pos hle]⟩
      · left
        rw [hstep, hcase, if_neg hle]
    · right
      exact ⟨f, by simp [hf], by rw [hstep, hfe]⟩

/-- C4 (amended): for every successful run of a network all of whose
reactions carry numeric (mass-action) rate constants, every species count
at every recorded point is ≥ 0: a mass-action reaction that would drive a
count below zero has propensity zero and is never selected.  (The
unamended claim fails for expression rates, which are eligible whenever
the expression is positive even if a reactant count is zero: see the
counterexample.) -/
theorem c4_nonneg_mass_action (net : Network) (init : List (String × ℤ)) (tmax : ℚ)
    (nbSteps : ℕ) (params : List (String × ℚ)) (seed : ℕ) (sparse : Option Bool)
    (varNames : Option (List String)) (fuel : ℕ) (res : RunResult)
    (hconst : ∀ r ∈ net.reactions, ∃ c, r.rate = RateKind.const c)
    (h : runSim net init tmax nbSteps params seed sparse varNames fuel = .ok res) :
    ∀ p ∈ res.series, ∀ v ∈ p.2, 0 ≤ v := by
  obtain ⟨hres, -, hfind, -⟩ := runSim_ok_inv h
  have hx0 : ∀ v ∈ initState net init, 0 ≤ v := by
    intro v hv
    unfold initState at hv
    obtain ⟨nm, -, hnm⟩ := List.mem_map.mp hv
    rw [← hnm]
    cases hlk : init.lookup nm with
    | none => simp
    | some w =>
      simp only [Option.getD_some]
      have hmem := lookup_mem hlk
      have := List.find?_eq_none.mp hfind _ hmem
      simpa using this
  have hx0len := initState_length net init
  have hloD := runLoopOut_eq_dense net init tmax nbSteps params seed sparse fuel
  set net2 := frozenNet net init with hnet2
  set x0 := initState net init with hx0def
  set lo := loopDense net2 params tmax (gridModeOf nbSteps) fuel 0 x0 (initialRng seed)
    with hlodef
  have hconst2 : ∀ r ∈ net2.reactions, ∃ c, r.rate = RateKind.const c := hconst
  obtain ⟨hev, hfin⟩ := loop_events_nonneg net2 params tmax (gridModeOf nbSteps) hconst2
    fuel 0 x0 (initialRng seed) hx0len hx0
  have hrows : ∀ row ∈ (outRows nbSteps tmax x0
      (runLoopOut net init tmax nbSteps params seed sparse fuel)).2, ∀ v ∈ row, 0 ≤ v := by
    rw [hloD]
    unfold outRows
    by_cases hnb : nbSteps = 0
    · rw [if_pos hnb]
      intro row hrow
      rcases List.mem_cons.mp hrow with rfl | hrow2
      · exact hx0
      · rcases List.mem_append.mp hrow2 with hrow3 | hrow3
        · obtain ⟨e, he, hesnd⟩ := List.mem_map.mp hrow3
          rw [← hesnd]
          exact hev e he
        · rcases hl2 : lo.2.1 with - | -
          · rw [hl2] at hrow3
            simp at hrow3
          · rw [hl2] at hrow3
            rw [if_pos rfl] at hrow3
            rcases List.mem_singleton.mp hrow3 with rfl
            exact hfin
    · rw [if_neg hnb]
      intro row hrow
      obtain ⟨k, -, hks⟩ := List.mem_map.mp hrow
      rw [← hks]
      rcases stateAt_cases lo.1 x0 ((k : ℚ) * tmax / (nbSteps : ℚ)) with hcase | ⟨e, he, hee⟩
      · rw [hcase]; exact hx0
      · rw [hee]; exact hev e he
  intro p hp v hv
  rw [hres] at hp
  simp only at hp
  unfold columnsOf at hp
  obtain ⟨nm, -, hnm⟩ := List.mem_map.mp hp
  have hp2 : p.2 = (outRows nbSteps tmax x0
      (runLoopOut net init tmax nbSteps params seed sparse fuel)).2.map
        (fun row => row.getD (spIdx net2.species nm) 0) := by rw [← hnm]
  rw [hp2] at hv
  obtain ⟨row, hrow, hrowv⟩ := List.mem_map.mp hv
  rw [← hrowv]
  exact getD_nonneg_of_all (hrows row hrow) _

/-- The network `A → ∅` with the expression rate `"1"` (a constant
propensity, which the binding layer's own docstring marks as an incorrect
LMA encoding). -/
def cexNet : Network :=
  addReaction ⟨[], []⟩ (.expr (.lit 1)) ["A"] [] none

theorem cexNet_reactions : (frozenNet cexNet [("A", 0)]).reactions
    = [⟨[0], [], .expr (.lit 1)⟩] := rfl

theorem cexNet_species : (frozenNet cexNet [("A", 0)]).species = ["A"] := rfl

theorem cexNet_init : initState cexNet [("A", 0)] = [0] := rfl

theorem cexNet_eff : effPropensity (frozenNet cexNet [("A", 0)]) [] [0]
    ⟨[0], [], .expr (.lit 1)⟩ = 1 := by
  unfold effPropensity rawPropensity
  simp only [RExpr.eval]
  exact max_eq_right (by norm_num)

theorem cexNet_total : totalOf (frozenNet cexNet [("A", 0)]) [] [0] = 1 := by
  rw [totalOf, propsOf, cexNet_reactions, List.map_cons, List.map_nil, cexNet_eff,
    List.sum_cons, List.sum_nil, add_zero]

theorem cexNet_chosen : chosenIdx (frozenNet cexNet [("A", 0)]) [] [0] (initialRng 0) = 0 := by
  unfold chosenIdx
  rw [propsOf, cexNet_reactions, List.map_cons, List.map_nil, cexNet_eff]
  rw [select]
  rw [if_pos]
  unfold targetOf
  rw [cexNet_total, mul_one]
  exact le_of_lt (toUniform_lt_one _)

theorem cexNet_next : nextState (frozenNet cexNet [("A", 0)]) [] [0] (initialRng 0) = [-1] := by
  unfold nextState
  rw [cexNet_chosen, cexNet_reactions, cexNet_species]
  decide

theorem cexNet_loop : loopDense (frozenNet cexNet [("A", 0)]) [] 1 (gridModeOf 0) 1 0 [0]
      (initialRng 0)
    = ([(0 + tauOf (frozenNet cexNet [("A", 0)]) [] [0] (initialRng 0), [-1])], false, [-1]) := by
  show loopDense (frozenNet cexNet [("A", 0)]) [] 1 (gridModeOf 0) (0 + 1) 0 [0]
      (initialRng 0) = _
  rw [loopDense]
  rw [if_neg (by rw [cexNet_total]; norm_num)]
  rw [if_neg (fun hcon => absurd hcon.1 (by decide))]
  by_cases htau : (1 : ℚ) < 0 + tauOf (frozenNet cexNet [("A", 0)]) [] [0] (initialRng 0)
  · rw [if_pos ⟨by decide, htau⟩, cexNet_next]
  · rw [if_neg (fun hcon => htau hcon.2), cexNet_next]
    rfl

/-- Counterexample to C4 as stated: the run of `A → ∅ @ "1"` (expression
rate) from `A = 0` in event mode fires the reaction although no reactant
is available — the expression propensity is 1, not 0 — and records the
count `A = −1`. -/
theorem c4_cex_negative_count :
    (runSim cexNet [("A", 0)] 1 0 [] 0 (some false) none 1).map RunResult.series
      = .ok [("A", [0, -1])] := by
  have hrun : runSim cexNet [("A", 0)] 1 0 [] 0 (some false) none 1
      = runAssemble cexNet [("A", 0)] 1 0 [] none
          ([(0 + tauOf (frozenNet cexNet [("A", 0)]) [] [0] (initialRng 0), [-1])],
           false, [-1]) := by
    unfold runSim
    rw [runLoopOut_eq_dense, cexNet_init, cexNet_loop]
  rw [hrun]
  decide

theorem abNet_init : initState abNet [] = [0, 0] := rfl

theorem abNet_eff : effPropensity (frozenNet abNet []) [] [0, 0]
    ⟨[0], [1], .const 4⟩ = 0 := by
  unfold effPropensity rawPropensity
  rw [show lmaFactor (fun i => ([0, 0] : List ℤ).getD i 0) [0] = 0 from rfl]
  norm_num

theorem abNet_total : totalOf (frozenNet abNet []) [] [0, 0] = 0 := by
  rw [totalOf, propsOf,
    show (frozenNet abNet []).reactions = [⟨[0], [1], .const 4⟩] from rfl,
    List.map_cons, List.map_nil, abNet_eff, List.sum_cons, List.sum_nil, add_zero]

theorem abNet_loop : loopDense (frozenNet abNet []) [] 10 (gridModeOf 2) 1 0 [0, 0]
    (initialRng 0) = ([], true, [0, 0]) := by
  show loopDense (frozenNet abNet []) [] 10 (gridModeOf 2) (0 + 1) 0 [0, 0]
      (initialRng 0) = _
  rw [loopDense, if_pos (le_of_eq abNet_total)]

theorem abNet_run : runSim abNet [] 10 2 [] 0 (some false) none 1
    = .ok ⟨false, gridTimes 2 10, [("A", [0, 0, 0]), ("B", [0, 0, 0])]⟩ := by
  unfold runSim
  rw [runLoopOut_eq_dense, abNet_init, abNet_loop]
  rfl

/-- Witness for the amended C4 at a concrete input: in the mass-action run
`A → B @ 4` from the empty initial condition, the first recorded value of
the `A` series is non-negative. -/
theorem c4_nonneg_mass_action_witness : (0 : ℤ) ≤ 0 :=
  c4_nonneg_mass_action abNet [] 10 2 [] 0 (some false) none 1
    ⟨false, gridTimes 2 10, [("A", [0, 0, 0]), ("B", [0, 0, 0])]⟩
    (fun r hr => by
      rw [show abNet.reactions = [⟨[0], [1], RateKind.const 4⟩] from rfl] at hr
      rcases List.mem_singleton.mp hr with rfl
      exact ⟨4, rfl⟩)
    abNet_run ("A", [0, 0, 0]) (by simp) 0 (by simp)

/-! ## Species uninvolved in any reaction -/

theorem mem_internAll_left {sp : List String} {a : String} (ns : List String) (h : a ∈ sp) :
    a ∈ internAll sp ns := by
  induction ns generalizing sp with
  | nil => exact h
  | cons n rest ih =>
    apply ih
    unfold internOne
    split
    · exact h
    · exact List.mem_append_left _ h

theorem mem_internAll_right {a : String} : ∀ (ns sp : List String), a ∈ ns →
    a ∈ internAll sp ns := by
  intro ns
  induction ns with
  | nil => intro sp h; simp at h
  | cons n rest ih =>
    intro sp h
    rcases List.mem_cons.mp h with rfl | h2
    · show a ∈ internAll (internOne sp a) rest
      apply mem_internAll_left
      unfold internOne
      split
      · assumption
      · exact List.mem_append_right _ (by simp)
    · show a ∈ internAll (internOne sp n) rest
      exact ih _ h2

theorem internAll_append : ∀ (ns sp : List String), ∃ extra, internAll sp ns = sp ++ extra := by
  intro ns
  induction ns with
  | nil => intro sp; exact ⟨[], by simp [internAll]⟩
  | cons n rest ih =>
    intro sp
    show ∃ extra, internAll (internOne sp n) rest = sp ++ extra
    unfold internOne
    split
    · exact ih sp
    · obtain ⟨extra, hextra⟩ := ih (sp ++ [n])
      exact ⟨[n] ++ extra, by rw [hextra, List.append_assoc]⟩

theorem rdelta_default (idx : ℕ) : rdelta (default : Reaction) idx = 0 := rfl

theorem rdelta_getD_zero (net : Network) (idx : ℕ)
    (hall : ∀ r ∈ net.reactions, rdelta r idx = 0) (k : ℕ) :
    rdelta (net.reactions.getD k default) idx = 0 := by
  by_cases hk : k < net.reactions.length
  · exact hall _ (getD_mem_of_lt default hk)
  · rw [List.getD_eq_getElem?_getD, List.getElem?_eq_none (le_of_not_lt hk)]
    exact rdelta_default idx

theorem loop_fixed_idx (net : Network) (params : List (String × ℚ)) (tmax : ℚ)
    (gridMode : Bool) (idx : ℕ) (hidx : idx < net.species.length)
    (hall : ∀ r ∈ net.reactions, rdelta r idx = 0) :
    ∀ fuel t (x : List ℤ) rng,
      (∀ e ∈ (loopDense net params tmax gridMode fuel t x rng).1,
          e.2.getD idx 0 = x.getD idx 0)
      ∧ (loopDense net params tmax gridMode fuel t x rng).2.2.getD idx 0 = x.getD idx 0 := by
  intro fuel
  induction fuel with
  | zero => intro t x rng; exact ⟨by simp [loopDense], by simp [loopDense]⟩
  | succ n ih =>
    intro t x rng
    rw [loopDense]
    have hnx : (nextState net params x rng).getD idx 0 = x.getD idx 0 := by
      unfold nextState
      rw [applyReaction_getD, if_pos hidx, rdelta_getD_zero net idx hall, add_zero]
    by_cases h1 : totalOf net params x ≤ 0
    · rw [if_pos h1]; exact ⟨by simp, rfl⟩
    · rw [if_neg h1]
      by_cases h2 : gridMode = true ∧ tmax < t + tauOf net params x rng
      · rw [if_pos h2]; exact ⟨by simp, rfl⟩
      · rw [if_neg h2]
        by_cases h3 : gridMode = false ∧ tmax < t + tauOf net params x rng
        · rw [if_pos h3]
          refine ⟨?_, by simpa using hnx⟩
          intro e he
          rcases List.mem_singleton.mp he with rfl
          simpa using hnx
        · rw [if_neg h3]
          obtain ⟨ihev, ihfin⟩ := ih (t + tauOf net params x rng)
            (nextState net params x rng) (rngAfter2 rng)
          refine ⟨?_, by rw [show (consEvent _ _).2.2
            = (loopDense net params tmax gridMode n (t + tauOf net params x rng)
                (nextState net params x rng) (rngAfter2 rng)).2.2 from rfl, ihfin, hnx]⟩
          intro e he
          rcases List.mem_cons.mp he with rfl | he2
          · simpa using hnx
          · rw [ihev e he2, hnx]

theorem map_eq_replicate {α β : Type} {f : α → β} {v : β} : ∀ {l : List α},
    (∀ b ∈ l, f b = v) → l.map f = List.replicate l.length v := by
  intro l
  induction l with
  | nil => intro _; rfl
  | cons a m ih =>
    intro h
    simp only [List.map_cons, List.length_cons, List.replicate_succ]
    rw [h a (by simp), ih (fun b hb => h b (by simp [hb]))]

theorem outRows_length (nbSteps : ℕ) (tmax : ℚ) (x0 : List ℤ)
    (lo : List (ℚ × List ℤ) × Bool × List ℤ) :
    (outRows nbSteps tmax x0 lo).1.length = (outRows nbSteps tmax x0 lo).2.length := by
  unfold outRows
  by_cases hnb : nbSteps = 0
  · rw [if_pos hnb]
    simp only [List.length_cons, List.length_append, List.length_map]
    cases lo.2.1 <;> simp
  · rw [if_neg hnb]
    simp [gridTimes]

/-- C9: a successful run whose `init` mentions a species name that appears
in no reaction (reactions' species indices are in range, and the name was
never interned by `add_reaction`) signals the non-fatal
`SpeciesNotInvolvedInAnyReaction` warning, interns the name, and the
species appears in the output (all species recorded) with its initial
value constant at every recorded point. -/
theorem c9_uninvolved_species (net : Network) (init : List (String × ℤ)) (tmax : ℚ)
    (nbSteps : ℕ) (params : List (String × ℚ)) (seed : ℕ) (sparse : Option Bool)
    (fuel : ℕ) (res : RunResult) (name : String) (v : ℤ)
    (hwf : ∀ r ∈ net.reactions, (∀ i ∈ r.reactants, i < net.species.length)
      ∧ (∀ i ∈ r.products, i < net.species.length))
    (hname : name ∉ net.species)
    (hlk : init.lookup name = some v)
    (h : runSim net init tmax nbSteps params seed sparse none fuel = .ok res) :
    res.warning = true
    ∧ (name, List.replicate res.times.length v) ∈ res.series := by
  obtain ⟨hres, -⟩ := runSim_ok_inv h
  have hmeminit : (name, v) ∈ init := lookup_mem hlk
  constructor
  · rw [hres]
    show initWarning net init = true
    rw [initWarning, List.any_eq_true]
    exact ⟨(name, v), hmeminit, by simp [hname]⟩
  · -- the frozen net interns the name
    have hsp : name ∈ (frozenNet net init).species := by
      apply mem_internAll_right
      exact List.mem_map.mpr ⟨(name, v), hmeminit, rfl⟩
    set net2 := frozenNet net init with hnet2
    set idx := spIdx net2.species name with hidxdef
    have hidxlt : idx < net2.species.length := findIdx_lt_length_of_mem hsp
    have hspname : net2.species.getD idx "" = name := getD_findIdx_of_mem hsp ""
    -- the name's index is beyond every reaction index
    have hidxge : net.species.length ≤ idx := by
      obtain ⟨extra, hextra⟩ := internAll_append (init.map Prod.fst) net.species
      have hfalse : ∀ b ∈ net.species, (b == name) = false := by
        intro b hb
        rcases hbeq : b == name with - | -
        · rfl
        · exact absurd ((by simpa using hbeq : b = name) ▸ hb) hname
      have : idx = net.species.length + (extra.findIdx (· == name)) := by
        rw [hidxdef, spIdx, show net2.species = net.species ++ extra from hextra,
          findIdx_append_of_none hfalse]
      omega
    -- no reaction changes the species at idx
    have hall : ∀ r ∈ net2.reactions, rdelta r idx = 0 := by
      intro r hr
      obtain ⟨hre, hpr⟩ := hwf r hr
      have h1 : idx ∉ r.reactants := fun hc => by have := hre idx hc; omega
      have h2 : idx ∉ r.products := fun hc => by have := hpr idx hc; omega
      rw [rdelta, List.count_eq_zero.mpr h1, List.count_eq_zero.mpr h2]
      rfl
    -- initial value at idx
    have hx0idx : (initState net init).getD idx 0 = v := by
      rw [initState, getD_map_lt _ _ _ _ "" (by simpa using hidxlt)]
      rw [show (frozenNet net init).species.getD idx "" = name from hspname, hlk]
      rfl
    -- every row is v at idx
    have hloD := runLoopOut_eq_dense net init tmax nbSteps params seed sparse fuel
    set x0 := initState net init with hx0def
    set lo := loopDense net2 params tmax (gridModeOf nbSteps) fuel 0 x0 (initialRng seed)
      with hlodef
    obtain ⟨hev, hfin⟩ := loop_fixed_idx net2 params tmax (gridModeOf nbSteps) idx hidxlt hall
      fuel 0 x0 (initialRng seed)
    have hrows : ∀ row ∈ (outRows nbSteps tmax x0
        (runLoopOut net init tmax nbSteps params seed sparse fuel)).2,
        row.getD idx 0 = v := by
      rw [hloD]
      unfold outRows
      by_cases hnb : nbSteps = 0
      · rw [if_pos hnb]
        intro row hrow
        rcases List.mem_cons.mp hrow with rfl | hrow2
        · exact hx0idx
        · rcases List.mem_append.mp hrow2 with hrow3 | hrow3
          · obtain ⟨e, he, hesnd⟩ := List.mem_map.mp hrow3
            rw [← hesnd, hev e he, hx0idx]
          · rcases hl2 : lo.2.1 with - | -
            · rw [hl2] at hrow3
              simp at hrow3
            · rw [hl2, if_pos rfl] at hrow3
              rcases List.mem_singleton.mp hrow3 with rfl
              rw [hfin, hx0idx]
      · rw [if_neg hnb]
        intro row hrow
        obtain ⟨k, -, hks⟩ := List.mem_map.mp hrow
        rw [← hks]
        rcases stateAt_cases lo.1 x0 ((k : ℚ) * tmax / (nbSteps : ℚ)) with hcase | ⟨e, he, hee⟩
        · rw [hcase, hx0idx]
        · rw [hee, hev e he, hx0idx]
    -- assemble the membership
    rw [hres]
    show (name, List.replicate
        ((outRows nbSteps tmax x0 (runLoopOut net init tmax nbSteps params seed sparse fuel)).1.length) v)
      ∈ columnsOf net2 none (outRows nbSteps tmax x0
          (runLoopOut net init tmax nbSteps params seed sparse fuel)).2
    unfold columnsOf
    apply List.mem_map.mpr
    refine ⟨name, ?_, ?_⟩
    · show name ∈ (recordedOf net2 none)
      unfold recordedOf
      simp only [Option.getD_none]
      exact List.mem_dedup.mpr hsp
    · congr 1
      rw [outRows_length]
      exact map_eq_replicate (fun row hrow => hrows row hrow)

/-- The `test_arbitrary_rates` style network `∅ → A @ "B"`. -/
def bNet : Network :=
  addReaction ⟨[], []⟩ (.expr (.var "B")) [] ["A"] none

theorem bNet_init : initState bNet [("B", 0)] = [0, 0] := rfl

theorem bNet_eff : effPropensity (frozenNet bNet [("B", 0)]) [] [0, 0]
    ⟨[], [0], .expr (.var "B")⟩ = 0 := by
  unfold effPropensity rawPropensity
  simp only [RExpr.eval]
  rw [show resolveEnv (frozenNet bNet [("B", 0)]) [] [0, 0] "B" = ((0 : ℤ) : ℚ) from rfl]
  norm_num

theorem bNet_total : totalOf (frozenNet bNet [("B", 0)]) [] [0, 0] = 0 := by
  rw [totalOf, propsOf,
    show (frozenNet bNet [("B", 0)]).reactions = [⟨[], [0], .expr (.var "B")⟩] from rfl,
    List.map_cons, List.map_nil, bNet_eff, List.sum_cons, List.sum_nil, add_zero]

theorem bNet_loop : loopDense (frozenNet bNet [("B", 0)]) [] 10 (gridModeOf 2) 1 0 [0, 0]
    (initialRng 0) = ([], true, [0, 0]) := by
  show loopDense (frozenNet bNet [("B", 0)]) [] 10 (gridModeOf 2) (0 + 1) 0 [0, 0]
      (initialRng 0) = _
  rw [loopDense, if_pos (le_of_eq bNet_total)]

theorem bNet_run : runSim bNet [("B", 0)] 10 2 [] 0 (some false) none 1
    = .ok ⟨true, gridTimes 2 10, [("A", [0, 0, 0]), ("B", [0, 0, 0])]⟩ := by
  unfold runSim
  rw [runLoopOut_eq_dense, bNet_init, bNet_loop]
  rfl

/-- Witness for C9 at a concrete input: `∅ → A @ "B"` run with
`init = {"B": 0}` warns, interns `B`, and records it constant. -/
theorem c9_uninvolved_species_witness :
    (⟨true, gridTimes 2 10, [("A", [0, 0, 0]), ("B", [0, 0, 0])]⟩ : RunResult).warning = true
    ∧ ("B", List.replicate
        (⟨true, gridTimes 2 10, [("A", [0, 0, 0]), ("B", [0, 0, 0])]⟩ : RunResult).times.length
        (0 : ℤ))
      ∈ (⟨true, gridTimes 2 10, [("A", [0, 0, 0]), ("B", [0, 0, 0])]⟩ : RunResult).series :=
  c9_uninvolved_species bNet [("B", 0)] 10 2 [] 0 (some false) 1
    ⟨true, gridTimes 2 10, [("A", [0, 0, 0]), ("B", [0, 0, 0])]⟩ "B" 0
    (by decide) (by decide) rfl bNet_run

/-! ## The labeled dataset returned by the binding layer -/

/-- Model of an `xarray.DataArray` as built by `Gillespie.run`
(`gillespie.py`): values, dimension names and the time coordinate. -/
structure DataArray where
  values : List ℤ
  dims : List String
  coords : List (WithTop ℚ)
deriving DecidableEq, Repr

/-- Model of the returned `xarray.Dataset`: the shared `time` coordinate
and one data variable per series. -/
structure Dataset where
  timeCoord : List (WithTop ℚ)
  dataVars : List (String × DataArray)
deriving DecidableEq, Repr

/-- The binding layer's construction (`gillespie.py`, `Gillespie.run`):
`ds = xr.Dataset(data_vars={name: xr.DataArray(values, dims="time",
coords={"time": times}) for name, values in result.items()},
coords={"time": times})`. -/
def mkDataset (times : List (WithTop ℚ)) (result : List (String × List ℤ)) : Dataset :=
  ⟨times, result.map (fun p => (p.1, ⟨p.2, ["time"], times⟩))⟩

/-- C10: for every successful run, the Dataset built by the binding layer
holds one data variable per recorded species (in recording order), each a
one-dimensional array over the single dimension `"time"` whose length
equals the length of the times array, and all variables share the time
coordinate. -/
theorem c10_dataset_shape (net : Network) (init : List (String × ℤ)) (tmax : ℚ)
    (nbSteps : ℕ) (params : List (String × ℚ)) (seed : ℕ) (sparse : Option Bool)
    (varNames : Option (List String)) (fuel : ℕ) (res : RunResult)
    (h : runSim net init tmax nbSteps params seed sparse varNames fuel = .ok res) :
    (mkDataset res.times res.series).timeCoord = res.times
    ∧ (mkDataset res.times res.series).dataVars.map Prod.fst
        = recordedOf (frozenNet net init) varNames
    ∧ ∀ p ∈ (mkDataset res.times res.series).dataVars,
        p.2.dims = ["time"]
        ∧ p.2.values.length = res.times.length
        ∧ p.2.coords = res.times := by
  obtain ⟨hres, -⟩ := runSim_ok_inv h
  refine ⟨rfl, ?_, ?_⟩
  · show (res.series.map (fun p => (p.1, (⟨p.2, ["time"], res.times⟩ : DataArray)))).map
        Prod.fst = recordedOf (frozenNet net init) varNames
    rw [hres]
    show ((columnsOf (frozenNet net init) varNames _).map
        (fun p => (p.1, (⟨p.2, ["time"], _⟩ : DataArray)))).map Prod.fst = _
    unfold columnsOf
    rw [List.map_map, List.map_map]
    exact List.map_id _
  · intro p hp
    obtain ⟨q, hq, hqe⟩ := List.mem_map.mp hp
    have hdims : p.2.dims = ["time"] := by rw [← hqe]
    have hcoords : p.2.coords = res.times := by rw [← hqe]
    have hvals : p.2.values = q.2 := by rw [← hqe]
    refine ⟨hdims, ?_, hcoords⟩
    rw [hvals]
    rw [hres] at hq ⊢
    simp only at hq ⊢
    unfold columnsOf at hq
    obtain ⟨nm, -, hnm⟩ := List.mem_map.mp hq
    have : q.2 = (outRows nbSteps tmax (initState net init)
        (runLoopOut net init tmax nbSteps params seed sparse fuel)).2.map
          (fun row => row.getD (spIdx (frozenNet net init).species nm) 0) := by
      rw [← hnm]
    rw [this, List.length_map, ← outRows_length]

/-- Witness for C10 at a concrete input: the dataset of the `∅ → A @ "B"`
run with `init = {"B": 0}` has variables `A` and `B`, both over `"time"`
with 3 entries and the grid time coordinate. -/
theorem c10_dataset_shape_witness :
    (mkDataset (gridTimes 2 10) [("A", [0, 0, 0]), ("B", [0, 0, 0])]).timeCoord
        = gridTimes 2 10
    ∧ (mkDataset (gridTimes 2 10) [("A", [0, 0, 0]), ("B", [0, 0, 0])]).dataVars.map Prod.fst
        = recordedOf (frozenNet bNet [("B", 0)]) none
    ∧ ∀ p ∈ (mkDataset (gridTimes 2 10) [("A", [0, 0, 0]), ("B", [0, 0, 0])]).dataVars,
        p.2.dims = ["time"]
        ∧ p.2.values.length = (gridTimes 2 10).length
        ∧ p.2.coords = gridTimes 2 10 :=
  c10_dataset_shape bNet [("B", 0)] 10 2 [] 0 (some false) none 1
    ⟨true, gridTimes 2 10, [("A", [0, 0, 0]), ("B", [0, 0, 0])]⟩ bNet_run

end Rebop
